import Mathlib

/-!
Verification of the PRBS / LFSR engine in
`src/libqjackaudio/include/jnoise/prbsgenerator.h`.

The C++ class `PRBSGenerator` is modelled as a structure with the five
fields `_stat, _poly, _mask, _hbit, _degr`, all `uint32_t` (resp. `int`)
values represented as `Nat`.  Every mutating member function is modelled
as an `Option`-returning function on the structure: a failing `assert`
in the source corresponds to `none`, as does the one loop that can fail
to terminate (the probe loop of `sync_back`, whose counter is a signed
`int` and is modelled with a sign-extending shift and sufficient fuel).
Machine-integer truncation is written explicitly (`% 2 ^ 32`) at the
one place where a 32-bit overflow can actually occur (the left shift
inside `sync_back`).
-/

/-- The five data members of the C++ class `PRBSGenerator`. -/
structure PRBSGenerator where
  stat : Nat
  poly : Nat
  mask : Nat
  hbit : Nat
  degr : Nat
deriving Repr, DecidableEq

/-- The constructor `PRBSGenerator::PRBSGenerator` initialises `_stat`,
`_poly`, `_mask` and `_degr` to `0`; the member `_hbit` is *not* in the
initialiser list, hence holds an indeterminate value `h`. -/
def PRBSGenerator.init (h : Nat) : PRBSGenerator :=
  { stat := 0, poly := 0, mask := 0, hbit := h, degr := 0 }

/-- The `while (_mask < _poly) { _mask = (_mask << 1) | 1; _degr += 1; }`
loop of `PRBSGenerator::setPoly`. -/
def maskDegrLoop (poly mask degr : Nat) : Nat × Nat :=
  if mask < poly then maskDegrLoop poly ((mask <<< 1) ||| 1) (degr + 1) else (mask, degr)
termination_by poly - mask
decreasing_by
  have h1 : (mask <<< 1) ||| 1 = 2 * mask + 1 := by
    have h2 : (2 * mask) ||| 1 = Nat.bit false mask ||| Nat.bit true 0 := by
      simp [Nat.bit_val]
    rw [Nat.shiftLeft_eq, pow_one, Nat.mul_comm, h2, Nat.lor_bit]
    simp [Nat.bit_val]
  omega

/-- `PRBSGenerator::setPoly`: asserts `poly != 0`, derives `_mask` and
`_degr` by the shift loop, resets `_stat` to `_mask` and sets
`_hbit = (_mask >> 1) + 1`. -/
def PRBSGenerator.setPoly (poly : Nat) (r : PRBSGenerator) : Option PRBSGenerator :=
  if poly = 0 then none else
  let md := maskDegrLoop poly 0 0
  some { r with poly := poly, mask := md.1, degr := md.2,
                stat := md.1, hbit := (md.1 >>> 1) + 1 }

/-- `PRBSGenerator::setStat`: asserts `_poly != 0`, sets
`_stat = stat & _mask` and asserts that the result is nonzero. -/
def PRBSGenerator.setStat (stat : Nat) (r : PRBSGenerator) : Option PRBSGenerator :=
  if r.poly = 0 then none else
  let s := stat &&& r.mask
  if s = 0 then none else some { r with stat := s }

/-- The pure state transition of `PRBSGenerator::step`:
`bit = stat & 1; stat >>= 1; if (bit) stat ^= poly`. -/
def stepT (p s : Nat) : Nat :=
  let bit := s &&& 1
  let s' := s >>> 1
  if bit ≠ 0 then s' ^^^ p else s'

/-- `PRBSGenerator::step`: asserts `_poly != 0`, returns the extracted
low bit and advances the state by `stepT`. -/
def PRBSGenerator.step (r : PRBSGenerator) : Option (Nat × PRBSGenerator) :=
  if r.poly = 0 then none else
  some (r.stat &&& 1, { r with stat := stepT r.poly r.stat })

/-- The `for (i = 0; i < _degr; i++)` loop of `PRBSGenerator::sync_forw`:
each round shifts the state right once, XORs the polynomial in when the
current low bit of `bits` is set, and consumes that bit. -/
def syncForwLoop (p : Nat) : Nat → Nat → Nat → Nat
  | 0, stat, _ => stat
  | n + 1, stat, bits =>
      syncForwLoop p n
        (let s := stat >>> 1; if bits &&& 1 ≠ 0 then s ^^^ p else s)
        (bits >>> 1)

/-- `PRBSGenerator::sync_forw`: asserts `_poly != 0` and runs the loop
`_degr` times. -/
def PRBSGenerator.sync_forw (bits : Nat) (r : PRBSGenerator) : Option PRBSGenerator :=
  if r.poly = 0 then none else
  some { r with stat := syncForwLoop r.poly r.degr r.stat bits }

/-- Arithmetic (sign-extending) right shift by one position of a 32-bit
`int` bit pattern, as performed by `h >>= 1` on a two's-complement
signed `int`: bit 31, the sign bit, is preserved. -/
def sarInt32 (h : Nat) : Nat :=
  if 2 ^ 31 ≤ h then (h >>> 1) ||| 2 ^ 31 else h >>> 1

/-- The `for (int h = _hbit; h; h >>= 1)` loop of
`PRBSGenerator::sync_back`: when `bits & h` is set the polynomial is
XORed in, then the state is shifted left one position (a 32-bit shift,
hence the truncation).  The probe `h` is declared `int` in the source,
so `h >>= 1` is an arithmetic shift: when `_hbit` has bit 31 set (a
degree-32 polynomial, `_hbit = 0x80000000`) the probe starts negative,
the shift keeps the sign bit, and the loop never reaches `h == 0`.  The
model therefore carries fuel: a terminating execution of the source
loop performs at most 32 iterations (while `h` is positive it halves
each round), so with fuel 33 the result is `some` exactly when the
source loop terminates and `none` exactly when it runs forever
(`syncBackLoop_sign_diverges` below shows `none` is fuel-independent). -/
def syncBackLoop (p : Nat) : Nat → Nat → Nat → Nat → Option Nat
  | 0, _, _, _ => none
  | fuel + 1, h, stat, bits =>
    if h = 0 then some stat
    else syncBackLoop p fuel (sarInt32 h)
          (((if bits &&& h ≠ 0 then stat ^^^ p else stat) <<< 1) % 2 ^ 32) bits

/-- Auxiliary for the proofs: the same probe loop under a *logical*
shift.  While the probe stays in positive `int` range (`h < 2 ^ 31`)
arithmetic and logical shifts agree, so there `syncBackLoop` returns
`some` of this value (`syncBackLoop_eq_pos` below). -/
def syncBackLoopPos (p : Nat) (h stat bits : Nat) : Nat :=
  if h = 0 then stat
  else syncBackLoopPos p (h >>> 1)
        (((if bits &&& h ≠ 0 then stat ^^^ p else stat) <<< 1) % 2 ^ 32) bits
termination_by h
decreasing_by
  have : h >>> 1 = h / 2 := Nat.shiftRight_one h
  omega

/-- `PRBSGenerator::sync_back`: asserts `_poly != 0`, clears the state,
runs the probe-bit loop from `_hbit`, finally XORs `bits` in and masks
with `_mask`.  `none` is returned on the failed assert and when the
probe loop does not terminate (the fuel 33 exceeds the at most 32
iterations of any terminating run of the source loop). -/
def PRBSGenerator.sync_back (bits : Nat) (r : PRBSGenerator) : Option PRBSGenerator :=
  if r.poly = 0 then none else
  (syncBackLoop r.poly 33 r.hbit 0 bits).map fun s =>
    { r with stat := (s ^^^ bits) &&& r.mask }

/-- `PRBSGenerator::crc_in`: asserts `_poly != 0`; the feedback bit is
`(_stat & 1) ^ b` instead of `_stat & 1`. -/
def PRBSGenerator.crc_in (b : Nat) (r : PRBSGenerator) : Option PRBSGenerator :=
  if r.poly = 0 then none else
  let bit := (r.stat &&& 1) ^^^ b
  let s := r.stat >>> 1
  some { r with stat := if bit ≠ 0 then s ^^^ r.poly else s }

/-- `PRBSGenerator::crc_out`: asserts `_poly != 0`, returns `_stat & 1`
and shifts the state right once with no feedback. -/
def PRBSGenerator.crc_out (r : PRBSGenerator) : Option (Nat × PRBSGenerator) :=
  if r.poly = 0 then none else
  some (r.stat &&& 1, { r with stat := r.stat >>> 1 })

/-- Run `step` a number of times, collecting the returned bits. -/
def PRBSGenerator.runSteps : Nat → PRBSGenerator → Option (List Nat × PRBSGenerator)
  | 0, r => some ([], r)
  | n + 1, r =>
    match r.step with
    | none => none
    | some (b, r') =>
      match PRBSGenerator.runSteps n r' with
      | none => none
      | some (bs, r'') => some (b :: bs, r'')

/-- The output bits of `n` consecutive `stepT` transitions from state `s`. -/
def outSeq (p : Nat) : Nat → Nat → List Nat
  | 0, _ => []
  | n + 1, s => (s &&& 1) :: outSeq p n (stepT p s)

/-- The low `n` bits of `x`, LSB first, each as `0` or `1`. -/
def bitsList (n x : Nat) : List Nat :=
  (List.range n).map fun i => (x >>> i) &&& 1

/-- Reassemble a LSB-first bit list into a natural number. -/
def wordOf : List Nat → Nat
  | [] => 0
  | b :: bs => b + 2 * wordOf bs

/-- Carry-less (GF(2) polynomial) multiplication, recursing on the bits
of the first argument. -/
def clmul (a b : Nat) : Nat :=
  if a = 0 then 0
  else (if a &&& 1 ≠ 0 then b else 0) ^^^ (clmul (a >>> 1) b <<< 1)
termination_by a
decreasing_by
  have : a >>> 1 = a / 2 := Nat.shiftRight_one a
  omega

/-- The state that makes the register output the bits of `x`:
`x ^ ((x * p) << 1)` with a carry-less product, i.e. `(1 + z·p(z))·x(z)`
in GF(2)[z]. -/
def encode (p x : Nat) : Nat := x ^^^ (clmul x p <<< 1)

/-- Derived shape of a register configured by `setPoly`: the polynomial
is a nonzero 32-bit value, `_mask`, `_degr`, `_hbit` have the values
`setPoly` computes from it.  The state field is unconstrained. -/
def ConfigOK (r : PRBSGenerator) : Prop :=
  0 < r.poly ∧ r.poly < 2 ^ 32 ∧ r.degr = Nat.size r.poly ∧
    r.mask = 2 ^ r.degr - 1 ∧ r.hbit = 2 ^ (r.degr - 1)

/-- Apply a GF(2) matrix, given as the list of images of the basis
vectors `1, 2, 4, …` (each encoded as a `Nat`), to a vector. -/
def mApply : List Nat → Nat → Nat
  | [], _ => 0
  | c :: cs, v => (if v &&& 1 ≠ 0 then c else 0) ^^^ mApply cs (v >>> 1)

/-- Matrix product: the columns of `A * B` are `A` applied to the
columns of `B`. -/
def matMul (A B : List Nat) : List Nat := B.map (mApply A)

/-- The list of images of the basis vectors `1, 2, …, 2 ^ (d - 1)`
under `f`. -/
def basisCols (f : Nat → Nat) : Nat → List Nat
  | 0 => []
  | d + 1 => f 1 :: basisCols (fun v => f (2 * v)) d

/-- The identity matrix on `d`-bit vectors. -/
def idMat (d : Nat) : List Nat := basisCols id d

/-- Matrix power by binary exponentiation; the exponent is given as its
list of binary digits, least significant first. -/
def matPowB (d : Nat) (M : List Nat) : List Nat → List Nat
  | [] => idMat d
  | b :: bs =>
    let Q := matPowB d (matMul M M) bs
    if b = 1 then matMul M Q else Q

/-- One round of the shared-squaring power evaluation: every item whose
next exponent bit is set is hit with the current matrix, and every
exponent loses its lowest bit. -/
def stepItems (M : List Nat) (items : List (List Nat × Nat)) : List (List Nat × Nat) :=
  items.map fun it => (it.1.tail, if it.1.headD 0 = 1 then mApply M it.2 else it.2)

/-- Evaluate many powers of one matrix on vectors while sharing the
squaring chain: item `(bits, v)` becomes `M ^ (wordOf bits)` applied to
`v`. -/
def multiPow : Nat → List Nat → List (List Nat × Nat) → List Nat
  | 0, _, items => items.map Prod.snd
  | fuel + 1, M, items => multiPow fuel (matMul M M) (stepItems M items)

/-- The register state after `t` steps from the reset state `2 ^ d - 1`. -/
def lfsrState (p d t : Nat) : Nat := (stepT p)^[t] (2 ^ d - 1)

/-- Exact-period property of the claim: from the reset state the state
sequence first returns to the reset state after exactly `2 ^ d - 1`
steps, and the output bit sequence has no period shorter than
`2 ^ d - 1` either. -/
def exactPeriod (p d : Nat) : Prop :=
  lfsrState p d (2 ^ d - 1) = 2 ^ d - 1 ∧
  (∀ k, 0 < k → k < 2 ^ d - 1 → lfsrState p d k ≠ 2 ^ d - 1) ∧
  (∀ t, lfsrState p d (t + (2 ^ d - 1)) &&& 1 = lfsrState p d t &&& 1) ∧
  ¬ ∃ q, 0 < q ∧ q < 2 ^ d - 1 ∧
      ∀ t, lfsrState p d (t + q) &&& 1 = lfsrState p d t &&& 1


/-- The low `n` bits of `a` and `b` agree. -/
def bitsEq (n a b : Nat) : Prop := ∀ i, i < n → a.testBit i = b.testBit i

/-! ### Basic helper lemmas -/

theorem shiftLeft_one_lor_one (m : Nat) : (m <<< 1) ||| 1 = 2 * m + 1 := by
  have h2 : (2 * m) ||| 1 = Nat.bit false m ||| Nat.bit true 0 := by
    simp [Nat.bit_val]
  rw [Nat.shiftLeft_eq, pow_one, Nat.mul_comm, h2, Nat.lor_bit]
  simp [Nat.bit_val]

theorem and_one_eq_of_testBit_zero {a b : Nat} (h : a.testBit 0 = b.testBit 0) :
    a &&& 1 = b &&& 1 := by
  rw [Nat.testBit_zero, Nat.testBit_zero, decide_eq_decide] at h
  rw [Nat.and_one_is_mod, Nat.and_one_is_mod]
  have ha := Nat.mod_two_eq_zero_or_one a
  have hb := Nat.mod_two_eq_zero_or_one b
  omega

theorem stepT_eq (p s : Nat) :
    stepT p s = (s >>> 1) ^^^ (if s &&& 1 ≠ 0 then p else 0) := by
  unfold stepT
  by_cases h : s &&& 1 ≠ 0
  · rw [if_pos h, if_pos h]
  · rw [if_neg h, if_neg h, Nat.xor_zero]

theorem clmul_unfold (a b : Nat) :
    clmul a b = (if a &&& 1 ≠ 0 then b else 0) ^^^ (clmul (a >>> 1) b <<< 1) := by
  by_cases h : a = 0
  · subst h; simp [clmul]
  · rw [clmul]; simp [h]

/-! ### Characterisation of `setPoly` -/

theorem maskDegrLoop_pow (p : Nat) (hp : 0 < p) :
    ∀ j k, Nat.size p - k = j → k ≤ Nat.size p →
      maskDegrLoop p (2 ^ k - 1) k = (2 ^ Nat.size p - 1, Nat.size p) := by
  intro j
  induction j with
  | zero =>
    intro k hk hle
    have hks : k = Nat.size p := by omega
    subst hks
    rw [maskDegrLoop, if_neg]
    have := Nat.lt_size_self p
    omega
  | succ j ih =>
    intro k hk hle
    have hklt : k < Nat.size p := by omega
    have h2k : 2 ^ k ≤ p := Nat.lt_size.mp hklt
    have hpow : (0:Nat) < 2 ^ k := Nat.pos_pow_of_pos k (by omega)
    rw [maskDegrLoop, if_pos (by omega)]
    have harg : ((2 ^ k - 1) <<< 1) ||| 1 = 2 ^ (k + 1) - 1 := by
      rw [shiftLeft_one_lor_one]
      have : (2:Nat) ^ (k + 1) = 2 ^ k * 2 := pow_succ 2 k
      omega
    rw [harg]
    exact ih (k + 1) (by omega) (by omega)

theorem setPoly_spec (p : Nat) (hp : 0 < p) (r : PRBSGenerator) :
    r.setPoly p = some { r with poly := p, mask := 2 ^ Nat.size p - 1,
                                degr := Nat.size p, stat := 2 ^ Nat.size p - 1,
                                hbit := 2 ^ (Nat.size p - 1) } := by
  have h0 : maskDegrLoop p 0 0 = (2 ^ Nat.size p - 1, Nat.size p) := by
    have := maskDegrLoop_pow p hp (Nat.size p) 0 (by omega) (by omega)
    simpa using this
  have hs : 0 < Nat.size p := Nat.size_pos.mpr hp
  have hbite : (2 ^ Nat.size p - 1) >>> 1 + 1 = 2 ^ (Nat.size p - 1) := by
    rw [Nat.shiftRight_one]
    have h2 : (2:Nat) ^ Nat.size p = 2 ^ (Nat.size p - 1) * 2 := by
      rw [← pow_succ]
      congr 1
      omega
    have h3 : (0:Nat) < 2 ^ (Nat.size p - 1) := Nat.pos_pow_of_pos _ (by omega)
    omega
  unfold PRBSGenerator.setPoly
  rw [if_neg (by omega)]
  simp [h0, hbite]

theorem size_eq_of_bounds {n k : Nat} (hk : 0 < k) (h1 : n < 2 ^ k)
    (h2 : 2 ^ (k - 1) ≤ n) : Nat.size n = k := by
  have hle := Nat.size_le.mpr h1
  have hlt := Nat.lt_size.mpr h2
  omega

theorem setPoly_configOK {p : Nat} (hp : 0 < p) (hp32 : p < 2 ^ 32)
    {r r' : PRBSGenerator} (h : r.setPoly p = some r') :
    ConfigOK r' ∧ r'.stat = r'.mask ∧ r'.poly = p ∧ r'.degr = Nat.size p := by
  rw [setPoly_spec p hp r] at h
  cases h
  refine ⟨⟨hp, hp32, rfl, rfl, rfl⟩, rfl, rfl, rfl⟩

/-! ### Claim C4: effect of `setPoly` -/

/-- Claim C4: for every nonzero 32-bit polynomial, `setPoly` derives
`mask` as the smallest value of the form `2 ^ k - 1` that is at least
`poly`, sets `degr` to that `k` (the bit length of `poly`), resets
`stat` to `mask`, sets `hbit = (mask >> 1) + 1`, stores the polynomial,
and is idempotent; in particular `setPoly 0x41` yields degree `7` and
mask `0x7F`. -/
theorem claim_C4 (p : Nat) (r : PRBSGenerator) (hp : 0 < p) (hp32 : p < 2 ^ 32) :
    (∃ r', r.setPoly p = some r' ∧
      r'.mask = 2 ^ r'.degr - 1 ∧ p ≤ r'.mask ∧
      (∀ j, p ≤ 2 ^ j - 1 → r'.mask ≤ 2 ^ j - 1) ∧
      r'.degr = Nat.size p ∧
      r'.stat = r'.mask ∧ r'.hbit = (r'.mask >>> 1) + 1 ∧ r'.poly = p ∧
      r'.setPoly p = some r') ∧
    (∀ r₀ : PRBSGenerator, ∃ r7, r₀.setPoly 0x41 = some r7 ∧
      r7.degr = 7 ∧ r7.mask = 0x7F) := by
  constructor
  · refine ⟨_, setPoly_spec p hp r, ?_⟩
    dsimp only
    have hs : 0 < Nat.size p := Nat.size_pos.mpr hp
    have hlt : p < 2 ^ Nat.size p := Nat.lt_size_self p
    have hbite : (2 ^ Nat.size p - 1) >>> 1 + 1 = 2 ^ (Nat.size p - 1) := by
      rw [Nat.shiftRight_one]
      have h2 : (2:Nat) ^ Nat.size p = 2 ^ (Nat.size p - 1) * 2 := by
        rw [← pow_succ]; congr 1; omega
      have h3 : (0:Nat) < 2 ^ (Nat.size p - 1) := Nat.pos_pow_of_pos _ (by omega)
      omega
    refine ⟨rfl, by omega, ?_, rfl, rfl, hbite.symm, rfl, ?_⟩
    · intro j hj
      have hpj : p < 2 ^ j := by
        have : (0:Nat) < 2 ^ j := Nat.pos_pow_of_pos _ (by omega)
        omega
      have : Nat.size p ≤ j := Nat.size_le.mpr hpj
      have := Nat.pow_le_pow_right (show 1 ≤ 2 by omega) this
      omega
    · exact setPoly_spec p hp _
  · intro r₀
    have h65 : Nat.size 65 = 7 := size_eq_of_bounds (by omega) (by norm_num) (by norm_num)
    refine ⟨_, setPoly_spec 0x41 (by omega) r₀, ?_, ?_⟩ <;> dsimp only <;>
      rw [h65] <;> norm_num

/-- Witness for C4 at the boundary polynomial `G7 = 0x41`. -/
theorem claim_C4_witness :
    (0:Nat) < 0x41 ∧ (0x41:Nat) < 2 ^ 32 ∧
    ((∃ r', (PRBSGenerator.init 0).setPoly 0x41 = some r' ∧
      r'.mask = 2 ^ r'.degr - 1 ∧ 0x41 ≤ r'.mask ∧
      (∀ j, 0x41 ≤ 2 ^ j - 1 → r'.mask ≤ 2 ^ j - 1) ∧
      r'.degr = Nat.size 0x41 ∧
      r'.stat = r'.mask ∧ r'.hbit = (r'.mask >>> 1) + 1 ∧ r'.poly = 0x41 ∧
      r'.setPoly 0x41 = some r') ∧
    (∀ r₀ : PRBSGenerator, ∃ r7, r₀.setPoly 0x41 = some r7 ∧
      r7.degr = 7 ∧ r7.mask = 0x7F)) :=
  ⟨by decide, by decide, claim_C4 0x41 (PRBSGenerator.init 0) (by decide) (by decide)⟩

/-! ### Claim C5: the step transition -/

/-- Claim C5: on a configured register with state `s`, `step` returns
`s mod 2` and the new state is `(s / 2) XOR polynomial` when `s` is odd
and `s / 2` when `s` is even; no other field is touched. -/
theorem claim_C5 (r : PRBSGenerator) (h : r.poly ≠ 0) :
    r.step = some (r.stat % 2,
      { r with stat := if r.stat % 2 = 1 then (r.stat / 2) ^^^ r.poly
                       else r.stat / 2 }) := by
  unfold PRBSGenerator.step
  rw [if_neg h]
  have hmod := Nat.mod_two_eq_zero_or_one r.stat
  unfold stepT
  rw [Nat.and_one_is_mod, Nat.shiftRight_one]
  rcases hmod with hm | hm
  · rw [hm, if_neg (by omega), if_neg (by omega)]
  · rw [hm, if_pos (by omega), if_pos (by omega)]

/-- Witness for C5: a `G7`-configured register with state `0x55`. -/
theorem claim_C5_witness :
    (PRBSGenerator.mk 0x55 0x41 0x7F 0x40 7).poly ≠ 0 ∧
    (PRBSGenerator.mk 0x55 0x41 0x7F 0x40 7).step = some (0x55 % 2,
      { PRBSGenerator.mk 0x55 0x41 0x7F 0x40 7 with
        stat := if 0x55 % 2 = 1 then (0x55 / 2) ^^^ 0x41 else 0x55 / 2 }) :=
  ⟨by decide, claim_C5 (PRBSGenerator.mk 0x55 0x41 0x7F 0x40 7) (by decide)⟩

/-! ### Claim C7: `setStat` rejects values that mask to zero -/

/-- Claim C7: on a configured register, `setStat` with a value whose
masked form is zero fails the assertion (returns `none`); it never
silently leaves the all-zero state. -/
theorem claim_C7 (r : PRBSGenerator) (s : Nat) (hc : r.poly ≠ 0)
    (h0 : s &&& r.mask = 0) : r.setStat s = none := by
  unfold PRBSGenerator.setStat
  rw [if_neg hc]
  simp [h0]

/-- Witness for C7: masking `0x80` with `G7`'s mask `0x7F` gives zero. -/
theorem claim_C7_witness :
    (PRBSGenerator.mk 0x7F 0x41 0x7F 0x40 7).poly ≠ 0 ∧
    (0x80 &&& (PRBSGenerator.mk 0x7F 0x41 0x7F 0x40 7).mask = 0) ∧
    (PRBSGenerator.mk 0x7F 0x41 0x7F 0x40 7).setStat 0x80 = none :=
  ⟨by decide, by decide,
    claim_C7 (PRBSGenerator.mk 0x7F 0x41 0x7F 0x40 7) 0x80 (by decide) (by decide)⟩

/-! ### Claim C8: the freshly constructed register -/

/-- Counterexample to claim C8: the constructor does not mention `_hbit`
in its initialiser list, so a newly constructed instance whose
indeterminate `_hbit` memory happens to hold `1` does not have all five
fields zero. -/
theorem claim_C8_counterexample :
    ¬ ((PRBSGenerator.init 1).stat = 0 ∧ (PRBSGenerator.init 1).poly = 0 ∧
       (PRBSGenerator.init 1).mask = 0 ∧ (PRBSGenerator.init 1).degr = 0 ∧
       (PRBSGenerator.init 1).hbit = 0) := by decide

/-- Claim C8 (amended): a newly constructed instance has `_stat`,
`_poly`, `_mask` and `_degr` equal to zero, while `_hbit` keeps whatever
indeterminate value the uninitialised member holds. -/
theorem claim_C8 (h : Nat) :
    (PRBSGenerator.init h).stat = 0 ∧ (PRBSGenerator.init h).poly = 0 ∧
    (PRBSGenerator.init h).mask = 0 ∧ (PRBSGenerator.init h).degr = 0 ∧
    (PRBSGenerator.init h).hbit = h :=
  ⟨rfl, rfl, rfl, rfl, rfl⟩

/-! ### Claim C10: `crc_in 0` refines `step` -/

/-- Claim C10: feeding the data bit `0` into `crc_in` performs exactly
the same state transition as `step`; the two agree on every register
(both also fail on the same unconfigured registers). -/
theorem claim_C10 (r : PRBSGenerator) :
    r.crc_in 0 = (r.step).map Prod.snd := by
  unfold PRBSGenerator.crc_in PRBSGenerator.step
  by_cases h : r.poly = 0
  · rw [if_pos h, if_pos h]; rfl
  · rw [if_neg h, if_neg h]
    have hstat : (if (r.stat &&& 1) ^^^ 0 ≠ 0 then r.stat >>> 1 ^^^ r.poly
                  else r.stat >>> 1) = stepT r.poly r.stat := by
      unfold stepT
      simp only [Nat.xor_zero]
    dsimp only
    rw [hstat]
    rfl

/-! ### Claim C9: only `_stat` is mutated -/

/-- Claim C9: on a configured register, each of `step`, `setStat`,
`sync_forw`, `sync_back`, `crc_in` and `crc_out` leaves `_poly`,
`_mask`, `_degr` and `_hbit` unchanged. -/
theorem claim_C9 (r : PRBSGenerator) (hp : r.poly ≠ 0) :
    (∀ b r', r.step = some (b, r') →
      r'.poly = r.poly ∧ r'.mask = r.mask ∧ r'.degr = r.degr ∧ r'.hbit = r.hbit) ∧
    (∀ s r', r.setStat s = some r' →
      r'.poly = r.poly ∧ r'.mask = r.mask ∧ r'.degr = r.degr ∧ r'.hbit = r.hbit) ∧
    (∀ x r', r.sync_forw x = some r' →
      r'.poly = r.poly ∧ r'.mask = r.mask ∧ r'.degr = r.degr ∧ r'.hbit = r.hbit) ∧
    (∀ x r', r.sync_back x = some r' →
      r'.poly = r.poly ∧ r'.mask = r.mask ∧ r'.degr = r.degr ∧ r'.hbit = r.hbit) ∧
    (∀ b r', r.crc_in b = some r' →
      r'.poly = r.poly ∧ r'.mask = r.mask ∧ r'.degr = r.degr ∧ r'.hbit = r.hbit) ∧
    (∀ b r', r.crc_out = some (b, r') →
      r'.poly = r.poly ∧ r'.mask = r.mask ∧ r'.degr = r.degr ∧ r'.hbit = r.hbit) := by
  refine ⟨?_, ?_, ?_, ?_, ?_, ?_⟩
  · intro b r' h
    unfold PRBSGenerator.step at h
    rw [if_neg hp] at h
    cases h
    exact ⟨rfl, rfl, rfl, rfl⟩
  · intro s r' h
    unfold PRBSGenerator.setStat at h
    rw [if_neg hp] at h
    dsimp only at h
    by_cases h0 : s &&& r.mask = 0
    · rw [if_pos h0] at h; cases h
    · rw [if_neg h0] at h; cases h; exact ⟨rfl, rfl, rfl, rfl⟩
  · intro x r' h
    unfold PRBSGenerator.sync_forw at h
    rw [if_neg hp] at h
    cases h
    exact ⟨rfl, rfl, rfl, rfl⟩
  · intro x r' h
    unfold PRBSGenerator.sync_back at h
    rw [if_neg hp, Option.map_eq_some'] at h
    obtain ⟨s, -, rfl⟩ := h
    exact ⟨rfl, rfl, rfl, rfl⟩
  · intro b r' h
    unfold PRBSGenerator.crc_in at h
    rw [if_neg hp] at h
    cases h
    exact ⟨rfl, rfl, rfl, rfl⟩
  · intro b r' h
    unfold PRBSGenerator.crc_out at h
    rw [if_neg hp] at h
    cases h
    exact ⟨rfl, rfl, rfl, rfl⟩

/-- Witness for C9 on a concrete `G7`-configured register. -/
theorem claim_C9_witness :
    (PRBSGenerator.mk 0x55 0x41 0x7F 0x40 7).poly ≠ 0 ∧
    (∀ b r', (PRBSGenerator.mk 0x55 0x41 0x7F 0x40 7).step = some (b, r') →
      r'.poly = 0x41 ∧ r'.mask = 0x7F ∧ r'.degr = 7 ∧ r'.hbit = 0x40) :=
  ⟨by decide, fun b r' h =>
    (claim_C9 (PRBSGenerator.mk 0x55 0x41 0x7F 0x40 7) (by decide)).1 b r' h⟩

/-! ### Claim C6: the nonzero-state invariant -/

theorem and_mask_eq_mod (s n : Nat) : s &&& (2 ^ n - 1) = s % 2 ^ n := by
  apply Nat.eq_of_testBit_eq
  intro i
  rw [Nat.testBit_and, Nat.testBit_two_pow_sub_one, Nat.testBit_mod_two_pow]
  exact Bool.and_comm ..

/-- Counterexample to claim C6: on a `G7`-configured register in the
(valid, nonzero) reset state, `sync_back 0` succeeds and leaves the
register in the all-zero state. -/
theorem claim_C6_counterexample :
    (PRBSGenerator.mk 0x7F 0x41 0x7F 0x40 7).sync_back 0 =
      some (PRBSGenerator.mk 0 0x41 0x7F 0x40 7) := by
  decide

/-- Claim C6 (amended): after `setPoly` the state is nonzero, and the
invariant `state ≠ 0 ∧ state & mask = state` is preserved by `step` and
by `setStat` (under its precondition); the externally driven operations
`sync_forw`, `sync_back`, `crc_in` and `crc_out` do not preserve it. -/
theorem claim_C6 (r : PRBSGenerator) (hcfg : ConfigOK r) (hnz : r.stat ≠ 0)
    (hm : r.stat &&& r.mask = r.stat) :
    (∀ b r', r.step = some (b, r') → r'.stat ≠ 0 ∧ r'.stat &&& r'.mask = r'.stat) ∧
    (∀ s r', r.setStat s = some r' → r'.stat ≠ 0 ∧ r'.stat &&& r'.mask = r'.stat) ∧
    (∀ (p : Nat) (r₀ r' : PRBSGenerator), 0 < p → r₀.setPoly p = some r' →
      r'.stat ≠ 0) := by
  obtain ⟨hp0, hp32, hdegr, hmask, hhbit⟩ := hcfg
  have hd1 : 0 < r.degr := by rw [hdegr]; exact Nat.size_pos.mpr hp0
  have hplt : r.poly < 2 ^ r.degr := by rw [hdegr]; exact Nat.lt_size_self r.poly
  have hpge : 2 ^ (r.degr - 1) ≤ r.poly := by
    rw [hdegr]
    exact Nat.lt_size.mp (by omega)
  have hslt : r.stat < 2 ^ r.degr := by
    rw [hmask, and_mask_eq_mod] at hm
    have := Nat.mod_lt r.stat (show 0 < 2 ^ r.degr from Nat.pos_pow_of_pos _ (by omega))
    omega
  refine ⟨?_, ?_, ?_⟩
  · intro b r' h
    unfold PRBSGenerator.step at h
    rw [if_neg (by omega)] at h
    cases h
    have hhalf : r.stat >>> 1 < 2 ^ (r.degr - 1) := by
      rw [Nat.shiftRight_one]
      have h2 : (2:Nat) ^ r.degr = 2 ^ (r.degr - 1) * 2 := by
        rw [← pow_succ]; congr 1; omega
      omega
    constructor
    · show stepT r.poly r.stat ≠ 0
      unfold stepT
      by_cases hb : r.stat &&& 1 ≠ 0
      · rw [if_pos hb]
        rw [Ne, Nat.xor_eq_zero]
        omega
      · rw [if_neg hb]
        rw [Nat.and_one_is_mod] at hb
        rw [Nat.shiftRight_one]
        omega
    · show stepT r.poly r.stat &&& _ = stepT r.poly r.stat
      have hlt : stepT r.poly r.stat < 2 ^ r.degr := by
        unfold stepT
        by_cases hb : r.stat &&& 1 ≠ 0
        · rw [if_pos hb]
          exact Nat.xor_lt_two_pow (by omega) hplt
        · rw [if_neg hb]
          rw [Nat.shiftRight_one]
          omega
      rw [hmask, and_mask_eq_mod]
      exact Nat.mod_eq_of_lt hlt
  · intro s r' h
    unfold PRBSGenerator.setStat at h
    rw [if_neg (by omega)] at h
    dsimp only at h
    by_cases h0 : s &&& r.mask = 0
    · rw [if_pos h0] at h; cases h
    · rw [if_neg h0] at h
      cases h
      refine ⟨h0, ?_⟩
      show s &&& r.mask &&& r.mask = s &&& r.mask
      rw [Nat.and_assoc, Nat.and_self]
  · intro p r₀ r' hpp h
    rw [setPoly_spec p hpp r₀] at h
    cases h
    show 2 ^ Nat.size p - 1 ≠ 0
    have := Nat.size_pos.mpr hpp
    have h2 : (2:Nat) ^ 1 ≤ 2 ^ Nat.size p := Nat.pow_le_pow_right (by omega) this
    omega

/-- Witness for C6 on a concrete `G7`-configured register. -/
theorem claim_C6_witness :
    ConfigOK (PRBSGenerator.mk 0x55 0x41 0x7F 0x40 7) ∧
    (∀ b r', (PRBSGenerator.mk 0x55 0x41 0x7F 0x40 7).step = some (b, r') →
      r'.stat ≠ 0 ∧ r'.stat &&& r'.mask = r'.stat) := by
  have hcfg : ConfigOK (PRBSGenerator.mk 0x55 0x41 0x7F 0x40 7) := by
    refine ⟨by decide, by decide, ?_, by decide, by decide⟩
    show (7:Nat) = Nat.size 0x41
    rw [size_eq_of_bounds (show 0 < 7 by decide) (by norm_num) (by norm_num)]
  exact ⟨hcfg,
    (claim_C6 (PRBSGenerator.mk 0x55 0x41 0x7F 0x40 7) hcfg (by decide) (by decide)).1⟩

/-! ### Claim C2: `sync_forw` -/

theorem xor_shiftRight (a b k : Nat) : (a ^^^ b) >>> k = (a >>> k) ^^^ (b >>> k) := by
  apply Nat.eq_of_testBit_eq
  intro i
  simp [Nat.testBit_shiftRight, Nat.testBit_xor]

theorem xor_shiftLeft (a b k : Nat) : (a ^^^ b) <<< k = (a <<< k) ^^^ (b <<< k) := by
  apply Nat.eq_of_testBit_eq
  intro i
  simp [Nat.testBit_shiftLeft, Nat.testBit_xor]
  by_cases h : k ≤ i <;> simp [h]

/-- Running `step` on a configured register is `outSeq`/`stepT` on the
state, with all other fields untouched. -/
theorem runSteps_eq (n : Nat) (r : PRBSGenerator) (hp : r.poly ≠ 0) :
    r.runSteps n = some (outSeq r.poly n r.stat,
      { r with stat := (stepT r.poly)^[n] r.stat }) := by
  induction n generalizing r with
  | zero => rfl
  | succ n ih =>
    show PRBSGenerator.runSteps (n + 1) r = _
    unfold PRBSGenerator.runSteps
    have hstep : r.step = some (r.stat &&& 1, { r with stat := stepT r.poly r.stat }) := by
      unfold PRBSGenerator.step
      rw [if_neg hp]
    rw [hstep]
    dsimp only
    rw [ih { r with stat := stepT r.poly r.stat } hp]
    rw [Function.iterate_succ_apply]
    rfl

/-- Replaying the register's own output bits through the `sync_forw`
loop performs the same transitions as stepping. -/
theorem syncForwLoop_replay (p : Nat) :
    ∀ n s, syncForwLoop p n s (wordOf (outSeq p n s)) = (stepT p)^[n] s := by
  intro n
  induction n with
  | zero => intro s; rfl
  | succ n ih =>
    intro s
    have hb : s &&& 1 = s % 2 := Nat.and_one_is_mod s
    have hble : s % 2 ≤ 1 := by omega
    show syncForwLoop p (n + 1) s (wordOf ((s &&& 1) :: outSeq p n (stepT p s))) = _
    unfold syncForwLoop
    have hw : wordOf ((s &&& 1) :: outSeq p n (stepT p s)) =
        (s &&& 1) + 2 * wordOf (outSeq p n (stepT p s)) := rfl
    set w := wordOf (outSeq p n (stepT p s)) with hwdef
    have hand : ((s &&& 1) + 2 * w) &&& 1 = s &&& 1 := by
      rw [Nat.and_one_is_mod, Nat.and_one_is_mod]
      omega
    have hshift : ((s &&& 1) + 2 * w) >>> 1 = w := by
      rw [Nat.shiftRight_one]
      omega
    rw [hw, hand, hshift]
    have harg : (let s' := s >>> 1; if s &&& 1 ≠ 0 then s' ^^^ p else s') = stepT p s := rfl
    rw [harg, ih (stepT p s), ← Function.iterate_succ_apply]

/-- The result of the `sync_forw` loop does not depend on the starting
state, provided both starting states fit in `n` bits. -/
theorem syncForwLoop_xor (p : Nat) :
    ∀ n u v x, syncForwLoop p n u x ^^^ syncForwLoop p n v x = (u ^^^ v) >>> n := by
  intro n
  induction n with
  | zero => intro u v x; rfl
  | succ n ih =>
    intro u v x
    show syncForwLoop p n _ (x >>> 1) ^^^ syncForwLoop p n _ (x >>> 1) = _
    rw [ih]
    have hcancel : ∀ a b c : Nat, (a ^^^ c) ^^^ (b ^^^ c) = a ^^^ b := by
      intro a b c
      apply Nat.eq_of_testBit_eq
      intro i
      simp only [Nat.testBit_xor]
      cases a.testBit i <;> cases b.testBit i <;> cases c.testBit i <;> rfl
    have huv : (let s := u >>> 1; if x &&& 1 ≠ 0 then s ^^^ p else s) ^^^
        (let s := v >>> 1; if x &&& 1 ≠ 0 then s ^^^ p else s) = (u ^^^ v) >>> 1 := by
      by_cases hx : x &&& 1 ≠ 0
      · show (if x &&& 1 ≠ 0 then u >>> 1 ^^^ p else u >>> 1) ^^^ _ = _
        rw [if_pos hx, if_pos hx, hcancel, ← xor_shiftRight]
      · show (if x &&& 1 ≠ 0 then u >>> 1 ^^^ p else u >>> 1) ^^^ _ = _
        rw [if_neg hx, if_neg hx, ← xor_shiftRight]
    rw [huv, ← Nat.shiftRight_add]
    congr 1
    omega

/-- Counterexample to claim C2: on the `G7`-configured register in the
reset state, `sync_forw 0x2A` followed by seven `step` calls does not
return the bits of `0x2A`. -/
theorem claim_C2_counterexample :
    ¬ (((PRBSGenerator.mk 0x7F 0x41 0x7F 0x40 7).sync_forw 0x2A).bind
        (fun r => (r.runSteps 7).map Prod.fst) = some (bitsList 7 0x2A)) := by
  decide

/-- Claim C2 (amended): `sync_forw` is forward synchronisation, not
replay.  If a configured register in a valid state produces the output
word `x` over `degree` steps, then `sync_forw x` drives any equally
configured register (from any valid state) into exactly the state the
stepped register reached; the next outputs continue the sequence rather
than repeating `x`. -/
theorem claim_C2 (r r₂ : PRBSGenerator) (hcfg : ConfigOK r)
    (hm : r.stat &&& r.mask = r.stat)
    (hpoly : r₂.poly = r.poly) (hdegr : r₂.degr = r.degr) (hmask2 : r₂.mask = r.mask)
    (hm2 : r₂.stat &&& r₂.mask = r₂.stat)
    (xs : List Nat) (rEnd : PRBSGenerator)
    (hrun : r.runSteps r.degr = some (xs, rEnd)) :
    r₂.sync_forw (wordOf xs) = some { r₂ with stat := rEnd.stat } := by
  obtain ⟨hp0, hp32, hdegrsz, hmask, hhbit⟩ := hcfg
  have hp : r.poly ≠ 0 := by omega
  rw [runSteps_eq r.degr r hp] at hrun
  have hxs : xs = outSeq r.poly r.degr r.stat := by
    have := congrArg (fun t => t.map Prod.fst) hrun
    simpa using this.symm
  have hrEnd : rEnd.stat = (stepT r.poly)^[r.degr] r.stat := by
    have := congrArg (fun t => t.map fun q => q.2.stat) hrun
    simpa using this.symm
  have hslt : r.stat < 2 ^ r.degr := by
    rw [hmask, and_mask_eq_mod] at hm
    have := Nat.mod_lt r.stat (show 0 < 2 ^ r.degr from Nat.pos_pow_of_pos _ (by omega))
    omega
  have hslt2 : r₂.stat < 2 ^ r.degr := by
    rw [hmask2, hmask, and_mask_eq_mod] at hm2
    have := Nat.mod_lt r₂.stat (show 0 < 2 ^ r.degr from Nat.pos_pow_of_pos _ (by omega))
    omega
  unfold PRBSGenerator.sync_forw
  rw [if_neg (by omega)]
  congr 1
  refine PRBSGenerator.mk.injEq .. ▸ ?_
  refine ⟨?_, rfl, rfl, rfl, rfl⟩
  show syncForwLoop r₂.poly r₂.degr r₂.stat (wordOf xs) = rEnd.stat
  have hdiff := syncForwLoop_xor r.poly r.degr r₂.stat r.stat (wordOf xs)
  have hz : (r₂.stat ^^^ r.stat) >>> r.degr = 0 := by
    rw [Nat.shiftRight_eq_div_pow]
    exact Nat.div_eq_of_lt (Nat.xor_lt_two_pow hslt2 hslt)
  rw [hz] at hdiff
  have hrepl : syncForwLoop r.poly r.degr r.stat (wordOf xs) = (stepT r.poly)^[r.degr] r.stat := by
    rw [hxs]
    exact syncForwLoop_replay r.poly r.degr r.stat
  rw [hpoly, hdegr]
  have heq : syncForwLoop r.poly r.degr r₂.stat (wordOf xs) =
      syncForwLoop r.poly r.degr r.stat (wordOf xs) := by
    have h0 := hdiff
    rwa [Nat.xor_eq_zero] at h0
  rw [heq, hrepl, hrEnd]

/-- Witness for C2: both registers are the `G7` reset register; its
seven outputs are `1,0,1,0,1,0,1` and replaying them lands on the same
final state `84`. -/
theorem claim_C2_witness :
    (PRBSGenerator.mk 0x7F 0x41 0x7F 0x40 7).sync_forw
        (wordOf [1, 0, 1, 0, 1, 0, 1]) =
      some { PRBSGenerator.mk 0x7F 0x41 0x7F 0x40 7 with
             stat := (PRBSGenerator.mk 84 0x41 0x7F 0x40 7).stat } := by
  have hcfg : ConfigOK (PRBSGenerator.mk 0x7F 0x41 0x7F 0x40 7) := by
    refine ⟨by decide, by decide, ?_, by decide, by decide⟩
    show (7:Nat) = Nat.size 0x41
    rw [size_eq_of_bounds (show 0 < 7 by decide) (by norm_num) (by norm_num)]
  exact claim_C2 (PRBSGenerator.mk 0x7F 0x41 0x7F 0x40 7)
    (PRBSGenerator.mk 0x7F 0x41 0x7F 0x40 7) hcfg (by decide) rfl rfl rfl (by decide)
    [1, 0, 1, 0, 1, 0, 1] (PRBSGenerator.mk 84 0x41 0x7F 0x40 7) (by decide)

/-! ### Claim C1: `sync_back` followed by `degree` steps, and the
degree-32 probe bug.  For degrees up to 31 the replay property holds
(`sync_back_replay` below); for the catalogued degree-32 polynomial
`G32` the probe of `sync_back`'s loop is a negative `int` and the loop
never terminates (`claim_C1`). -/

theorem bitsEq_refl (n a : Nat) : bitsEq n a a := fun _ _ => rfl

theorem bitsEq_trans {n a b c : Nat} (h1 : bitsEq n a b) (h2 : bitsEq n b c) :
    bitsEq n a c := fun i hi => (h1 i hi).trans (h2 i hi)

theorem bitsEq_of_eq {n a b : Nat} (h : a = b) : bitsEq n a b := by
  subst h; exact bitsEq_refl n a

theorem bitsEq_xor {n a a' b b' : Nat} (h1 : bitsEq n a a') (h2 : bitsEq n b b') :
    bitsEq n (a ^^^ b) (a' ^^^ b') := by
  intro i hi
  rw [Nat.testBit_xor, Nat.testBit_xor, h1 i hi, h2 i hi]

theorem bitsEq_shiftLeft {n a b : Nat} (k : Nat) (h : bitsEq n a b) :
    bitsEq n (a <<< k) (b <<< k) := by
  intro i hi
  rw [Nat.testBit_shiftLeft, Nat.testBit_shiftLeft]
  by_cases hk : k ≤ i
  · have hib := h (i - k) (by omega)
    simp [hk, hib]
  · simp [hk]

theorem bitsEq_mod_two_pow (n a : Nat) : bitsEq n (a % 2 ^ n) a := by
  intro i hi
  rw [Nat.testBit_mod_two_pow]
  simp [hi]

theorem testBit_and_one (a i : Nat) :
    (a &&& 1).testBit i = (a.testBit i && decide (i = 0)) := by
  have h1 : (1:Nat) = 2 ^ 0 := rfl
  rw [Nat.testBit_and, h1, Nat.testBit_two_pow]
  congr 1
  exact decide_eq_decide.mpr ⟨fun h => h.symm, fun h => h.symm⟩

theorem xor_and_one (a b : Nat) :
    (a ^^^ b) &&& 1 = (a &&& 1) ^^^ (b &&& 1) := by
  apply Nat.eq_of_testBit_eq
  intro i
  rw [Nat.testBit_xor, testBit_and_one, testBit_and_one, testBit_and_one,
    Nat.testBit_xor]
  cases a.testBit i <;> cases b.testBit i <;> cases decide (i = 0) <;> rfl

theorem xor_cancel_pair (a b c : Nat) : (a ^^^ c) ^^^ (b ^^^ c) = a ^^^ b := by
  apply Nat.eq_of_testBit_eq
  intro i
  simp only [Nat.testBit_xor]
  cases a.testBit i <;> cases b.testBit i <;> cases c.testBit i <;> rfl

theorem bitsList_succ (n x : Nat) :
    bitsList (n + 1) x = (x &&& 1) :: bitsList n (x >>> 1) := by
  unfold bitsList
  rw [List.range_succ_eq_map, List.map_cons, List.map_map]
  refine congrArg₂ List.cons rfl ?_
  apply List.map_congr_left
  intro i _
  show (x >>> (i + 1)) &&& 1 = ((x >>> 1) >>> i) &&& 1
  rw [show i + 1 = 1 + i by omega, Nat.shiftRight_add]

theorem encode_testBit_zero (p x : Nat) : (encode p x).testBit 0 = x.testBit 0 := by
  unfold encode
  rw [Nat.testBit_xor, Nat.testBit_shiftLeft]
  simp

theorem encode_testBit_succ (p x i : Nat) :
    (encode p x).testBit (i + 1) =
      ((x.testBit (i + 1)).xor ((clmul x p).testBit i)) := by
  unfold encode
  rw [Nat.testBit_xor, Nat.testBit_shiftLeft]
  simp

theorem clmul_zero_left (b : Nat) : clmul 0 b = 0 := by
  rw [clmul]
  simp

theorem clmul_two_pow (k c : Nat) : clmul (2 ^ k) c = c <<< k := by
  induction k with
  | zero =>
    rw [clmul_unfold]
    norm_num
    show c ^^^ clmul 0 c <<< 1 = c
    rw [clmul_zero_left, Nat.zero_shiftLeft, Nat.xor_zero]
  | succ k ih =>
    rw [clmul_unfold]
    have h1 : (2 ^ (k + 1)) &&& 1 = 0 := by
      rw [Nat.and_one_is_mod, pow_succ, Nat.mul_mod_left]
    have h2 : (2 ^ (k + 1)) >>> 1 = 2 ^ k := by
      rw [Nat.shiftRight_one, pow_succ, Nat.mul_div_cancel]
      omega
    rw [h1, h2, ih]
    simp only [ne_eq, not_true_eq_false, if_false, Nat.zero_xor]
    rw [show k + 1 = k + 1 from rfl, Nat.shiftLeft_add c k 1]

theorem clmul_xor (c : Nat) : ∀ a b, clmul (a ^^^ b) c = clmul a c ^^^ clmul b c := by
  intro a
  induction a using Nat.strong_induction_on with
  | _ a ih =>
    intro b
    by_cases ha : a = 0
    · subst ha
      rw [clmul_zero_left, Nat.zero_xor, Nat.zero_xor]
    · have hlt : a >>> 1 < a := by
        rw [Nat.shiftRight_one]
        omega
      rw [clmul_unfold (a ^^^ b), clmul_unfold a, clmul_unfold b,
        xor_shiftRight, ih (a >>> 1) hlt (b >>> 1), xor_shiftLeft]
      have hone := xor_and_one a b
      have hA := Nat.and_one_is_mod a
      have hB := Nat.and_one_is_mod b
      set La := clmul (a >>> 1) c <<< 1
      set Lb := clmul (b >>> 1) c <<< 1
      by_cases ca : a &&& 1 = 0
      · by_cases cb : b &&& 1 = 0
        · have cab : (a ^^^ b) &&& 1 = 0 := by
            rw [hone, ca, cb]
            simp
          rw [if_neg (by omega), if_neg (by omega), if_neg (by omega)]
          rw [Nat.zero_xor, Nat.zero_xor, Nat.zero_xor]
        · have cab : (a ^^^ b) &&& 1 ≠ 0 := by rw [hone, ca, Nat.zero_xor]; exact cb
          rw [if_pos cab, if_neg (by omega), if_pos (by omega)]
          rw [Nat.zero_xor]
          apply Nat.eq_of_testBit_eq
          intro i
          simp only [Nat.testBit_xor]
          cases c.testBit i <;> cases La.testBit i <;> cases Lb.testBit i <;> rfl
      · by_cases cb : b &&& 1 = 0
        · have cab : (a ^^^ b) &&& 1 ≠ 0 := by rw [hone, cb, Nat.xor_zero]; exact ca
          rw [if_pos cab, if_pos (by omega), if_neg (by omega)]
          rw [Nat.zero_xor]
          apply Nat.eq_of_testBit_eq
          intro i
          simp only [Nat.testBit_xor]
          cases c.testBit i <;> cases La.testBit i <;> cases Lb.testBit i <;> rfl
        · have cab : (a ^^^ b) &&& 1 = 0 := by
            rw [hone]
            have : a &&& 1 = 1 := by omega
            have hb1 : b &&& 1 = 1 := by omega
            rw [this, hb1, Nat.xor_self]
          rw [if_neg (by omega), if_pos (by omega), if_pos (by omega)]
          rw [Nat.zero_xor]
          apply Nat.eq_of_testBit_eq
          intro i
          simp only [Nat.testBit_xor]
          cases c.testBit i <;> cases La.testBit i <;> cases Lb.testBit i <;> rfl

theorem mod_two_pow_split (x j : Nat) :
    x % 2 ^ (j + 1) = (x % 2 ^ j) ^^^ (x &&& 2 ^ j) := by
  apply Nat.eq_of_testBit_eq
  intro i
  rw [Nat.testBit_xor, Nat.testBit_mod_two_pow, Nat.testBit_mod_two_pow,
    Nat.testBit_and, Nat.testBit_two_pow]
  rcases lt_trichotomy i j with h | h | h
  · simp [h, Nat.lt_succ_of_lt h, Nat.ne_of_gt h]
  · subst h
    simp [Nat.lt_irrefl, Nat.lt_succ_self]
  · have h1 : ¬ i < j := by omega
    have h2 : ¬ i < j + 1 := by omega
    simp [h1, h2, Nat.ne_of_lt h]

/-- One `stepT` transition moves the encoded state for `x` to the
encoded state for `x >> 1` (exactly, not only modulo `2 ^ degree`). -/
theorem stepT_encode (p x : Nat) : stepT p (encode p x) = encode p (x >>> 1) := by
  rw [stepT_eq]
  have hbit : encode p x &&& 1 = x &&& 1 :=
    and_one_eq_of_testBit_zero (encode_testBit_zero p x)
  rw [hbit]
  have hshift : (encode p x) >>> 1 = (x >>> 1) ^^^ clmul x p := by
    unfold encode
    rw [xor_shiftRight]
    congr 1
    apply Nat.eq_of_testBit_eq
    intro i
    rw [Nat.testBit_shiftRight, Nat.testBit_shiftLeft]
    simp [Nat.add_comm]
  rw [hshift, clmul_unfold x p]
  unfold encode
  apply Nat.eq_of_testBit_eq
  intro i
  simp only [Nat.testBit_xor]
  cases (x >>> 1).testBit i <;>
    cases ((if x &&& 1 ≠ 0 then p else 0)).testBit i <;>
    cases ((clmul (x >>> 1) p <<< 1)).testBit i <;> rfl

/-- Stepping `n` times from the encoded state outputs the bits of `x`. -/
theorem outSeq_of_encode (p : Nat) : ∀ n x, outSeq p n (encode p x) = bitsList n x := by
  intro n
  induction n with
  | zero => intro x; rfl
  | succ n ih =>
    intro x
    show (encode p x &&& 1) :: outSeq p n (stepT p (encode p x)) = _
    rw [bitsList_succ, stepT_encode, ih (x >>> 1)]
    refine congrArg₂ List.cons ?_ rfl
    exact and_one_eq_of_testBit_zero (encode_testBit_zero p x)

/-- The first `n` outputs only depend on the low `n` bits of the state. -/
theorem outSeq_congr (p : Nat) : ∀ n s t, bitsEq n s t → outSeq p n s = outSeq p n t := by
  intro n
  induction n with
  | zero => intro s t _; rfl
  | succ n ih =>
    intro s t h
    have hb0 : s.testBit 0 = t.testBit 0 := h 0 (by omega)
    have h1 : s &&& 1 = t &&& 1 := and_one_eq_of_testBit_zero hb0
    show (s &&& 1) :: outSeq p n (stepT p s) = (t &&& 1) :: outSeq p n (stepT p t)
    rw [h1]
    refine congrArg₂ List.cons rfl ?_
    apply ih
    intro i hi
    rw [stepT_eq, stepT_eq, h1]
    rw [Nat.testBit_xor, Nat.testBit_xor, Nat.testBit_shiftRight, Nat.testBit_shiftRight]
    rw [h (1 + i) (by omega)]

/-- A state whose low `n` bits are those of `encode p x` outputs the
bits of `x` over the next `n` steps. -/
theorem outSeq_encode (p n x s : Nat) (h : bitsEq n s (encode p x)) :
    outSeq p n s = bitsList n x := by
  rw [outSeq_congr p n s (encode p x) h, outSeq_of_encode]

theorem clmul_one_left (p : Nat) : clmul 1 p = p := by
  rw [clmul_unfold]
  show (if 1 &&& 1 ≠ 0 then p else 0) ^^^ (clmul 0 p <<< 1) = p
  rw [clmul_zero_left, Nat.zero_shiftLeft, Nat.xor_zero, if_pos (by decide)]

/-- Characterisation of the logical-shift probe loop started at
`h = 2 ^ j`: on the low 32 bits it computes `s` shifted up `j + 1`
places XOR the carry-less product of the low `j + 1` bits of `bits`
with the polynomial, shifted up one place. -/
theorem syncBackLoopPos_char (p x : Nat) :
    ∀ j s, bitsEq 32 (syncBackLoopPos p (2 ^ j) s x)
      ((s <<< (j + 1)) ^^^ (clmul (x % 2 ^ (j + 1)) p <<< 1)) := by
  intro j
  induction j with
  | zero =>
    intro s
    rw [syncBackLoopPos, if_neg (by norm_num)]
    show bitsEq 32 (syncBackLoopPos p 0
      (((if x &&& 1 ≠ 0 then s ^^^ p else s) <<< 1) % 2 ^ 32) x) _
    rw [syncBackLoopPos, if_pos rfl]
    refine bitsEq_trans (bitsEq_mod_two_pow 32 _) (bitsEq_of_eq ?_)
    by_cases hb : x &&& 1 ≠ 0
    · rw [if_pos hb]
      have hx2 : x % 2 ^ 1 = 1 := by
        have := Nat.and_one_is_mod x
        have h21 : (2:Nat) ^ 1 = 2 := by norm_num
        omega
      rw [hx2, clmul_one_left, xor_shiftLeft]
    · rw [if_neg hb]
      have hx2 : x % 2 ^ 1 = 0 := by
        have := Nat.and_one_is_mod x
        have h21 : (2:Nat) ^ 1 = 2 := by norm_num
        omega
      rw [hx2, clmul_zero_left, Nat.zero_shiftLeft, Nat.xor_zero]
  | succ j ih =>
    intro s
    rw [syncBackLoopPos, if_neg (by positivity)]
    have hsh : (2:Nat) ^ (j + 1) >>> 1 = 2 ^ j := by
      rw [Nat.shiftRight_one, pow_succ, Nat.mul_div_cancel]
      omega
    rw [hsh]
    refine bitsEq_trans (ih _) ?_
    refine bitsEq_trans
      (bitsEq_xor (bitsEq_shiftLeft (j + 1) (bitsEq_mod_two_pow 32 _))
        (bitsEq_refl 32 _)) (bitsEq_of_eq ?_)
    have hBshift : ∀ a : Nat, (a <<< 1) <<< (j + 1) = a <<< (j + 1 + 1) := by
      intro a
      rw [← Nat.shiftLeft_add a 1 (j + 1)]
      congr 1
      omega
    have hsplit : clmul (x % 2 ^ (j + 1 + 1)) p =
        clmul (x % 2 ^ (j + 1)) p ^^^ clmul (x &&& 2 ^ (j + 1)) p := by
      rw [mod_two_pow_split, clmul_xor]
    by_cases hb : x &&& 2 ^ (j + 1) ≠ 0
    · have htb : x &&& 2 ^ (j + 1) = 2 ^ (j + 1) := by
        cases hxb : x.testBit (j + 1) with
        | false =>
          rw [Nat.and_two_pow, hxb] at hb
          simp at hb
        | true =>
          rw [Nat.and_two_pow, hxb]
          simp
      rw [if_pos hb, hBshift, hsplit, htb, clmul_two_pow,
        xor_shiftLeft s p, xor_shiftLeft (clmul (x % 2 ^ (j + 1)) p) (p <<< (j + 1)),
        ← Nat.shiftLeft_add p (j + 1) 1]
      apply Nat.eq_of_testBit_eq
      intro i
      simp only [Nat.testBit_xor]
      cases (s <<< (j + 1 + 1)).testBit i <;>
        cases ((p <<< (j + 1 + 1))).testBit i <;>
        cases ((clmul (x % 2 ^ (j + 1)) p <<< 1)).testBit i <;> rfl
    · have htb0 : x &&& 2 ^ (j + 1) = 0 := by omega
      rw [if_neg hb, hBshift, hsplit, htb0, clmul_zero_left, Nat.xor_zero]

/-- When the probe has its sign bit set the arithmetic shift keeps the
sign bit set, so the loop never reaches `h = 0`: no amount of fuel
makes it return a value, which is exactly non-termination of the
source loop. -/
theorem syncBackLoop_sign_diverges (p x : Nat) :
    ∀ fuel h s, 2 ^ 31 ≤ h → syncBackLoop p fuel h s x = none := by
  intro fuel
  induction fuel with
  | zero =>
    intro h s _
    rfl
  | succ fuel ih =>
    intro h s hh
    rw [syncBackLoop, if_neg (by omega)]
    apply ih
    unfold sarInt32
    rw [if_pos hh]
    have hb : ((h >>> 1) ||| 2 ^ 31).testBit 31 = true := by
      rw [Nat.testBit_or, Nat.testBit_two_pow_self, Bool.or_true]
    by_contra hc
    rw [Nat.testBit_lt_two_pow (by omega)] at hb
    cases hb

/-- While the probe stays in positive `int` range the fuelled loop
terminates and agrees with the logical-shift loop: started at
`h = 2 ^ j` with `j ≤ 30` and fuel at least `j + 2`, it returns `some`
of `syncBackLoopPos`. -/
theorem syncBackLoop_eq_pos (p x : Nat) :
    ∀ j, j ≤ 30 → ∀ fuel, j + 2 ≤ fuel → ∀ s,
      syncBackLoop p fuel (2 ^ j) s x = some (syncBackLoopPos p (2 ^ j) s x) := by
  intro j
  induction j with
  | zero =>
    intro _ fuel hfuel s
    obtain ⟨f1, rfl⟩ : ∃ f1, fuel = f1 + 1 := ⟨fuel - 1, by omega⟩
    obtain ⟨f2, rfl⟩ : ∃ f2, f1 = f2 + 1 := ⟨f1 - 1, by omega⟩
    show syncBackLoop p (f2 + 1 + 1) 1 s x = some (syncBackLoopPos p 1 s x)
    have hne : ¬((1:Nat) = 0) := by norm_num
    have hz : ((0:Nat) = 0) := rfl
    have h1 : sarInt32 1 = 0 := by decide
    have h0 : (1:Nat) >>> 1 = 0 := rfl
    rw [syncBackLoop, if_neg hne, h1, syncBackLoop, if_pos hz,
      syncBackLoopPos, if_neg hne, h0, syncBackLoopPos, if_pos hz]
  | succ j ih =>
    intro hj fuel hfuel s
    obtain ⟨f1, rfl⟩ : ∃ f1, fuel = f1 + 1 := ⟨fuel - 1, by omega⟩
    have hne : ¬((2:Nat) ^ (j + 1) = 0) := by positivity
    rw [syncBackLoop, if_neg hne, syncBackLoopPos, if_neg hne]
    have hlt : (2:Nat) ^ (j + 1) < 2 ^ 31 := by
      have h30 : (2:Nat) ^ (j + 1) ≤ 2 ^ 30 :=
        Nat.pow_le_pow_right (by norm_num) (by omega)
      have h31 : (2:Nat) ^ 30 < 2 ^ 31 := by norm_num
      omega
    have hsh : (2:Nat) ^ (j + 1) >>> 1 = 2 ^ j := by
      rw [Nat.shiftRight_one, pow_succ, Nat.mul_div_cancel]
      omega
    have hsar : sarInt32 (2 ^ (j + 1)) = 2 ^ j := by
      unfold sarInt32
      rw [if_neg (by omega), hsh]
    rw [hsar, hsh]
    exact ih (by omega) f1 (by omega) _

/-- For registers of degree at most 31 the probe of `sync_back` stays a
positive `int` and the loop terminates: on any register configured by
`setPoly` (state field arbitrary) and any `x` with `x & mask == x`,
`sync_back x` followed by `degree` calls to `step` returns exactly the
bits of `x`, LSB first. -/
theorem sync_back_replay (r : PRBSGenerator) (x : Nat) (hcfg : ConfigOK r)
    (hd31 : r.degr ≤ 31) (hx : x &&& r.mask = x) :
    ∃ r', r.sync_back x = some r' ∧
      (r'.runSteps r.degr).map Prod.fst = some (bitsList r.degr x) := by
  obtain ⟨hp0, hp32, hdegr, hmask, hhbit⟩ := hcfg
  have hd1 : 0 < r.degr := by
    rw [hdegr]
    exact Nat.size_pos.mpr hp0
  have hxlt : x < 2 ^ r.degr := by
    rw [hmask, and_mask_eq_mod] at hx
    have := Nat.mod_lt x (show 0 < 2 ^ r.degr from Nat.pos_pow_of_pos _ (by omega))
    omega
  have hloop : syncBackLoop r.poly 33 r.hbit 0 x =
      some (syncBackLoopPos r.poly r.hbit 0 x) := by
    rw [hhbit]
    exact syncBackLoop_eq_pos r.poly x (r.degr - 1) (by omega) 33 (by omega) 0
  have hsb : r.sync_back x =
      some { r with stat := (syncBackLoopPos r.poly r.hbit 0 x ^^^ x) &&& r.mask } := by
    unfold PRBSGenerator.sync_back
    rw [if_neg (by omega), hloop, Option.map_some']
  refine ⟨_, hsb, ?_⟩
  have hrs := runSteps_eq r.degr
    { r with stat := (syncBackLoopPos r.poly r.hbit 0 x ^^^ x) &&& r.mask }
    (by show r.poly ≠ 0; omega)
  rw [hrs]
  show some (outSeq r.poly r.degr
    ((syncBackLoopPos r.poly r.hbit 0 x ^^^ x) &&& r.mask)) = _
  refine congrArg some ?_
  apply outSeq_encode
  intro i hi
  rw [hmask, and_mask_eq_mod, Nat.testBit_mod_two_pow]
  have hi32 : i < 32 := by omega
  have hl := syncBackLoopPos_char r.poly x (r.degr - 1) 0 i hi32
  rw [hhbit] at *
  have hj1 : r.degr - 1 + 1 = r.degr := by omega
  rw [hj1] at hl
  rw [Nat.testBit_xor, hl, Nat.mod_eq_of_lt hxlt, Nat.zero_shiftLeft, Nat.zero_xor]
  unfold encode
  rw [Nat.testBit_xor]
  simp only [hi, decide_eq_true_eq]
  cases (clmul x r.poly <<< 1).testBit i <;> cases x.testBit i <;> rfl

/-- Claim C1: fails on the code for the catalogued degree-32 polynomial
`G32 = 0x80000057` — a bug in the code, which documents support for
polynomials up to and including degree 32.  `setPoly 0x80000057` yields
the configured register with `hbit = 0x80000000`; on it the probe of
`sync_back`'s loop, `for (int h = _hbit; h; h >>= 1)`, starts as the
negative `int` `0x80000000`, the arithmetic shift preserves the sign
bit, the loop never reaches `h == 0` and `sync_back` never returns
(modelled as `none`, backed by the fuel-independent
`syncBackLoop_sign_diverges`), for every input `x` — so no sequence of
`step` outputs after it exists at all.  For all degrees up to 31 the
claimed replay property does hold (`sync_back_replay`). -/
theorem claim_C1 :
    (∀ h, (PRBSGenerator.init h).setPoly 0x80000057 =
      some (PRBSGenerator.mk 0xFFFFFFFF 0x80000057 0xFFFFFFFF 0x80000000 32)) ∧
    ∀ x, (PRBSGenerator.mk
      0xFFFFFFFF 0x80000057 0xFFFFFFFF 0x80000000 32).sync_back x = none := by
  constructor
  · intro h
    have hs : Nat.size 0x80000057 = 32 :=
      size_eq_of_bounds (by norm_num) (by norm_num) (by norm_num)
    have hsp := setPoly_spec 0x80000057 (by norm_num) (PRBSGenerator.init h)
    rw [hs] at hsp
    exact hsp
  · intro x
    unfold PRBSGenerator.sync_back
    dsimp only
    rw [if_neg (by norm_num),
      syncBackLoop_sign_diverges 0x80000057 x 33 0x80000000 0 (by norm_num)]
    rfl

/-! ### Claim C3: exact period of the catalogued polynomials -/

theorem stepT_zero (p : Nat) : stepT p 0 = 0 := rfl

theorem stepT_xor (p a b : Nat) : stepT p (a ^^^ b) = stepT p a ^^^ stepT p b := by
  rw [stepT_eq, stepT_eq, stepT_eq, xor_shiftRight]
  have hone := xor_and_one a b
  by_cases ca : a &&& 1 = 0
  · by_cases cb : b &&& 1 = 0
    · have cab : (a ^^^ b) &&& 1 = 0 := by
        rw [hone, ca, cb]
        simp
      rw [if_neg (by omega), if_neg (by omega), if_neg (by omega)]
      rw [Nat.xor_zero, Nat.xor_zero, Nat.xor_zero]
    · have cab : (a ^^^ b) &&& 1 ≠ 0 := by
        rw [hone, ca, Nat.zero_xor]
        exact cb
      rw [if_pos cab, if_neg (by omega), if_pos (by omega)]
      apply Nat.eq_of_testBit_eq
      intro i
      simp only [Nat.testBit_xor, Nat.zero_testBit]
      cases (a >>> 1).testBit i <;> cases (b >>> 1).testBit i <;>
        cases p.testBit i <;> rfl
  · by_cases cb : b &&& 1 = 0
    · have cab : (a ^^^ b) &&& 1 ≠ 0 := by
        rw [hone, cb, Nat.xor_zero]
        exact ca
      rw [if_pos cab, if_pos (by omega), if_neg (by omega)]
      apply Nat.eq_of_testBit_eq
      intro i
      simp only [Nat.testBit_xor, Nat.zero_testBit]
      cases (a >>> 1).testBit i <;> cases (b >>> 1).testBit i <;>
        cases p.testBit i <;> rfl
    · have cab : (a ^^^ b) &&& 1 = 0 := by
        rw [hone]
        have h1 : a &&& 1 = 1 := by
          have := Nat.and_one_is_mod a
          omega
        have h2 : b &&& 1 = 1 := by
          have := Nat.and_one_is_mod b
          omega
        rw [h1, h2, Nat.xor_self]
      rw [if_neg (by omega), if_pos (by omega), if_pos (by omega)]
      apply Nat.eq_of_testBit_eq
      intro i
      simp only [Nat.testBit_xor, Nat.zero_testBit]
      cases (a >>> 1).testBit i <;> cases (b >>> 1).testBit i <;>
        cases p.testBit i <;> rfl

theorem stepT_lt (p d : Nat) (hp : p < 2 ^ d) :
    ∀ v, v < 2 ^ d → stepT p v < 2 ^ d := by
  intro v hv
  rw [stepT_eq]
  have hs : v >>> 1 < 2 ^ d := by
    rw [Nat.shiftRight_one]
    omega
  by_cases hb : v &&& 1 ≠ 0
  · rw [if_pos hb]
    exact Nat.xor_lt_two_pow hs hp
  · rw [if_neg hb, Nat.xor_zero]
    exact hs

theorem stepT_ne_zero (p d : Nat) (hd : 0 < d) (hp1 : 2 ^ (d - 1) ≤ p)
    (hp2 : p < 2 ^ d) : ∀ v, v < 2 ^ d → v ≠ 0 → stepT p v ≠ 0 := by
  intro v hv hnz
  rw [stepT_eq]
  have hhalf : v >>> 1 < 2 ^ (d - 1) := by
    rw [Nat.shiftRight_one]
    have h2 : (2:Nat) ^ d = 2 ^ (d - 1) * 2 := by
      rw [← pow_succ]
      congr 1
      omega
    omega
  by_cases hb : v &&& 1 ≠ 0
  · rw [if_pos hb, Ne, Nat.xor_eq_zero]
    omega
  · rw [if_neg hb, Nat.xor_zero, Nat.shiftRight_one]
    have := Nat.and_one_is_mod v
    omega

theorem mApply_zero (M : List Nat) : mApply M 0 = 0 := by
  induction M with
  | nil => rfl
  | cons c cs ih =>
    show (if (0:Nat) &&& 1 ≠ 0 then c else 0) ^^^ mApply cs (0 >>> 1) = 0
    rw [if_neg (by decide)]
    rw [show (0:Nat) >>> 1 = 0 from rfl, ih]
    decide

theorem mApply_xor (M : List Nat) : ∀ a b,
    mApply M (a ^^^ b) = mApply M a ^^^ mApply M b := by
  induction M with
  | nil =>
    intro a b
    show (0:Nat) = 0 ^^^ 0
    rw [Nat.xor_zero]
  | cons c cs ih =>
    intro a b
    show (if (a ^^^ b) &&& 1 ≠ 0 then c else 0) ^^^ mApply cs ((a ^^^ b) >>> 1) = _
    rw [xor_shiftRight, ih]
    have hone := xor_and_one a b
    by_cases ca : a &&& 1 = 0
    · by_cases cb : b &&& 1 = 0
      · have cab : (a ^^^ b) &&& 1 = 0 := by
          rw [hone, ca, cb]
          simp
        show _ = ((if a &&& 1 ≠ 0 then c else 0) ^^^ _) ^^^
          ((if b &&& 1 ≠ 0 then c else 0) ^^^ _)
        rw [if_neg (by omega), if_neg (by omega), if_neg (by omega)]
        rw [Nat.zero_xor, Nat.zero_xor, Nat.zero_xor]
      · have cab : (a ^^^ b) &&& 1 ≠ 0 := by
          rw [hone, ca, Nat.zero_xor]
          exact cb
        show _ = ((if a &&& 1 ≠ 0 then c else 0) ^^^ _) ^^^
          ((if b &&& 1 ≠ 0 then c else 0) ^^^ _)
        rw [if_pos cab, if_neg (by omega), if_pos (by omega), Nat.zero_xor]
        apply Nat.eq_of_testBit_eq
        intro i
        simp only [Nat.testBit_xor, Nat.zero_testBit]
        cases c.testBit i <;> cases (mApply cs (a >>> 1)).testBit i <;>
          cases (mApply cs (b >>> 1)).testBit i <;> rfl
    · by_cases cb : b &&& 1 = 0
      · have cab : (a ^^^ b) &&& 1 ≠ 0 := by
          rw [hone, cb, Nat.xor_zero]
          exact ca
        show _ = ((if a &&& 1 ≠ 0 then c else 0) ^^^ _) ^^^
          ((if b &&& 1 ≠ 0 then c else 0) ^^^ _)
        rw [if_pos cab, if_pos (by omega), if_neg (by omega), Nat.zero_xor]
        apply Nat.eq_of_testBit_eq
        intro i
        simp only [Nat.testBit_xor, Nat.zero_testBit]
        cases c.testBit i <;> cases (mApply cs (a >>> 1)).testBit i <;>
          cases (mApply cs (b >>> 1)).testBit i <;> rfl
      · have cab : (a ^^^ b) &&& 1 = 0 := by
          rw [hone]
          have h1 : a &&& 1 = 1 := by
            have := Nat.and_one_is_mod a
            omega
          have h2 : b &&& 1 = 1 := by
            have := Nat.and_one_is_mod b
            omega
          rw [h1, h2, Nat.xor_self]
        show _ = ((if a &&& 1 ≠ 0 then c else 0) ^^^ _) ^^^
          ((if b &&& 1 ≠ 0 then c else 0) ^^^ _)
        rw [if_neg (by omega), if_pos (by omega), if_pos (by omega), Nat.zero_xor]
        apply Nat.eq_of_testBit_eq
        intro i
        simp only [Nat.testBit_xor, Nat.zero_testBit]
        cases c.testBit i <;> cases (mApply cs (a >>> 1)).testBit i <;>
          cases (mApply cs (b >>> 1)).testBit i <;> rfl

theorem bit_decomp (s : Nat) :
    (if s &&& 1 ≠ 0 then 1 else 0) ^^^ (2 * (s >>> 1)) = s := by
  apply Nat.eq_of_testBit_eq
  intro i
  have h2 : 2 * (s >>> 1) = (s >>> 1) <<< 1 := by
    rw [Nat.shiftLeft_eq, pow_one, Nat.mul_comm]
  rw [Nat.testBit_xor, h2, Nat.testBit_shiftLeft]
  cases i with
  | zero =>
    simp only [Nat.testBit_zero]
    have hm := Nat.and_one_is_mod s
    have := Nat.mod_two_eq_zero_or_one s
    rcases this with h | h
    · rw [if_neg (by omega)]
      simp [h]
    · rw [if_pos (by omega)]
      simp [h]
  | succ i =>
    have h1 : (if s &&& 1 ≠ 0 then (1:Nat) else 0).testBit (i + 1) = false := by
      by_cases hb : s &&& 1 ≠ 0
      · rw [if_pos hb]
        have : (1:Nat) = 2 ^ 0 := rfl
        rw [this, Nat.testBit_two_pow]
        simp
      · rw [if_neg hb, Nat.zero_testBit]
    rw [h1]
    simp only [Nat.testBit_shiftRight]
    have : (i + 1) - 1 = i := by omega
    simp [this, Nat.add_comm]

/-- `mApply` of the matrix of basis images computes any linear map on
`d`-bit vectors. -/
theorem mApply_basisCols :
    ∀ (d : Nat) (f : Nat → Nat), (∀ a b, f (a ^^^ b) = f a ^^^ f b) → f 0 = 0 →
      ∀ s, s < 2 ^ d → mApply (basisCols f d) s = f s := by
  intro d
  induction d with
  | zero =>
    intro f hlin h0 s hs
    have : s = 0 := by omega
    subst this
    rw [show basisCols f 0 = [] from rfl]
    rw [show mApply [] 0 = 0 from rfl, h0]
  | succ d ih =>
    intro f hlin h0 s hs
    show (if s &&& 1 ≠ 0 then f 1 else 0) ^^^
      mApply (basisCols (fun v => f (2 * v)) d) (s >>> 1) = f s
    have hglin : ∀ a b, f (2 * (a ^^^ b)) = f (2 * a) ^^^ f (2 * b) := by
      intro a b
      have h2 : 2 * (a ^^^ b) = (2 * a) ^^^ (2 * b) := by
        have hsh : ∀ t : Nat, 2 * t = t <<< 1 := by
          intro t
          rw [Nat.shiftLeft_eq, pow_one, Nat.mul_comm]
        rw [hsh, hsh, hsh, xor_shiftLeft]
      rw [h2, hlin]
    have hg0 : f (2 * 0) = 0 := by
      rw [Nat.mul_zero, h0]
    have hs2 : s >>> 1 < 2 ^ d := by
      rw [Nat.shiftRight_one]
      rw [pow_succ] at hs
      omega
    rw [ih (fun v => f (2 * v)) hglin hg0 (s >>> 1) hs2]
    have hif : (if s &&& 1 ≠ 0 then f 1 else 0) = f (if s &&& 1 ≠ 0 then 1 else 0) := by
      by_cases hb : s &&& 1 ≠ 0
      · rw [if_pos hb, if_pos hb]
      · rw [if_neg hb, if_neg hb, h0]
    rw [hif, ← hlin, bit_decomp]

/-- `matMul` composes under `mApply`. -/
theorem mApply_matMul (A : List Nat) : ∀ (B : List Nat) (v : Nat),
    mApply (matMul A B) v = mApply A (mApply B v) := by
  intro B
  induction B with
  | nil =>
    intro v
    show (0:Nat) = mApply A 0
    rw [mApply_zero]
  | cons c cs ih =>
    intro v
    show (if v &&& 1 ≠ 0 then mApply A c else 0) ^^^ mApply (matMul A cs) (v >>> 1) = _
    rw [ih (v >>> 1)]
    show _ = mApply A ((if v &&& 1 ≠ 0 then c else 0) ^^^ mApply cs (v >>> 1))
    rw [mApply_xor]
    by_cases hb : v &&& 1 ≠ 0
    · rw [if_pos hb, if_pos hb]
    · rw [if_neg hb, if_neg hb, mApply_zero]

theorem mApply_idMat (d : Nat) (v : Nat) (hv : v < 2 ^ d) :
    mApply (idMat d) v = v := by
  unfold idMat
  exact mApply_basisCols d id (fun a b => rfl) rfl v hv

theorem iterate_double (T : Nat → Nat) : ∀ n v, (T ∘ T)^[n] v = T^[2 * n] v := by
  intro n
  induction n with
  | zero => intro v; rfl
  | succ n ih =>
    intro v
    rw [Function.iterate_succ_apply, Function.comp_apply, ih (T (T v))]
    have h2 : 2 * (n + 1) = 2 * n + 1 + 1 := by omega
    rw [h2, Function.iterate_succ_apply, Function.iterate_succ_apply]

theorem iterate_lt (T : Nat → Nat) (d : Nat) (hcl : ∀ v, v < 2 ^ d → T v < 2 ^ d) :
    ∀ n v, v < 2 ^ d → T^[n] v < 2 ^ d := by
  intro n
  induction n with
  | zero => intro v hv; exact hv
  | succ n ih =>
    intro v hv
    rw [Function.iterate_succ_apply]
    exact ih (T v) (hcl v hv)

/-- The matrix-power computation agrees with iterating any linear map
that the base matrix computes on `d`-bit vectors. -/
theorem mApply_matPowB (d : Nat) :
    ∀ (bits : List Nat) (T : Nat → Nat) (M : List Nat),
      (∀ b ∈ bits, b ≤ 1) →
      (∀ v, v < 2 ^ d → T v < 2 ^ d) →
      (∀ v, v < 2 ^ d → mApply M v = T v) →
      ∀ v, v < 2 ^ d → mApply (matPowB d M bits) v = T^[wordOf bits] v := by
  intro bits
  induction bits with
  | nil =>
    intro T M hbits hcl hag v hv
    exact mApply_idMat d v hv
  | cons b bs ih =>
    intro T M hbits hcl hag v hv
    have hb : b ≤ 1 := hbits b (by simp)
    have hbs : ∀ x ∈ bs, x ≤ 1 := fun x hx => hbits x (by simp [hx])
    have hcl2 : ∀ v, v < 2 ^ d → (T ∘ T) v < 2 ^ d := by
      intro v hv
      exact hcl (T v) (hcl v hv)
    have hag2 : ∀ v, v < 2 ^ d → mApply (matMul M M) v = (T ∘ T) v := by
      intro v hv
      rw [mApply_matMul, hag v hv, hag (T v) (hcl v hv)]
      rfl
    have hQ := ih (T ∘ T) (matMul M M) hbs hcl2 hag2
    show mApply (let Q := matPowB d (matMul M M) bs; if b = 1 then matMul M Q else Q) v = _
    by_cases hb1 : b = 1
    · subst hb1
      rw [if_pos rfl]
      show mApply (matMul M (matPowB d (matMul M M) bs)) v = _
      rw [mApply_matMul, hQ v hv, iterate_double]
      have hQlt : T^[2 * wordOf bs] v < 2 ^ d := iterate_lt T d hcl _ v hv
      rw [hag _ hQlt]
      show _ = T^[wordOf (1 :: bs)] v
      have hw : wordOf (1 :: bs) = 2 * wordOf bs + 1 := by
        show 1 + 2 * wordOf bs = 2 * wordOf bs + 1
        omega
      rw [hw, Function.iterate_succ_apply']
    · have hb0 : b = 0 := by omega
      subst hb0
      rw [if_neg (by omega)]
      rw [hQ v hv, iterate_double]
      have hw : wordOf (0 :: bs) = 2 * wordOf bs := by
        show 0 + 2 * wordOf bs = 2 * wordOf bs
        omega
      rw [hw]

/-- Iterating the step transition equals applying the matrix power. -/
theorem stepT_iter_eq_mat (p d : Nat) (hp2 : p < 2 ^ d)
    (bits : List Nat) (hbits : ∀ b ∈ bits, b ≤ 1) (v : Nat) (hv : v < 2 ^ d) :
    (stepT p)^[wordOf bits] v = mApply (matPowB d (basisCols (stepT p) d) bits) v :=
  (mApply_matPowB d bits (stepT p) (basisCols (stepT p) d) hbits (stepT_lt p d hp2)
    (fun v hv => mApply_basisCols d (stepT p) (stepT_xor p) (stepT_zero p) v hv) v hv).symm

/-- The shared-squaring evaluation computes iterates of any linear map
the base matrix represents on `d`-bit vectors. -/
theorem multiPow_spec (d : Nat) :
    ∀ (fuel : Nat) (T : Nat → Nat) (M : List Nat) (items : List (List Nat × Nat)),
      (∀ v, v < 2 ^ d → T v < 2 ^ d) →
      (∀ v, v < 2 ^ d → mApply M v = T v) →
      (∀ it ∈ items, (∀ b ∈ it.1, b ≤ 1) ∧ it.1.length ≤ fuel ∧ it.2 < 2 ^ d) →
      multiPow fuel M items = items.map fun it => T^[wordOf it.1] it.2 := by
  intro fuel
  induction fuel with
  | zero =>
    intro T M items hcl hag hcond
    show items.map Prod.snd = _
    apply List.map_congr_left
    intro it hit
    obtain ⟨_, hlen, _⟩ := hcond it hit
    have hnil : it.1 = [] := List.eq_nil_of_length_eq_zero (by omega)
    rw [hnil]
    rfl
  | succ fuel ih =>
    intro T M items hcl hag hcond
    show multiPow fuel (matMul M M) (stepItems M items) = _
    have hcl2 : ∀ v, v < 2 ^ d → (T ∘ T) v < 2 ^ d := by
      intro v hv
      exact hcl (T v) (hcl v hv)
    have hag2 : ∀ v, v < 2 ^ d → mApply (matMul M M) v = (T ∘ T) v := by
      intro v hv
      rw [mApply_matMul, hag v hv, hag (T v) (hcl v hv)]
      rfl
    have hcond2 : ∀ it ∈ stepItems M items,
        (∀ b ∈ it.1, b ≤ 1) ∧ it.1.length ≤ fuel ∧ it.2 < 2 ^ d := by
      intro it hit
      unfold stepItems at hit
      rw [List.mem_map] at hit
      obtain ⟨it0, hit0, heq⟩ := hit
      obtain ⟨hb0, hlen0, hv0⟩ := hcond it0 hit0
      subst heq
      refine ⟨?_, ?_, ?_⟩
      · intro b hb
        exact hb0 b (List.mem_of_mem_tail hb)
      · show it0.1.tail.length ≤ fuel
        rw [List.length_tail]
        omega
      · show (if it0.1.headD 0 = 1 then mApply M it0.2 else it0.2) < 2 ^ d
        by_cases hh : it0.1.headD 0 = 1
        · rw [if_pos hh, hag it0.2 hv0]
          exact hcl it0.2 hv0
        · rw [if_neg hh]
          exact hv0
    rw [ih (T ∘ T) (matMul M M) (stepItems M items) hcl2 hag2 hcond2]
    unfold stepItems
    rw [List.map_map]
    apply List.map_congr_left
    intro it hit
    obtain ⟨hb, hlen, hv⟩ := hcond it hit
    obtain ⟨bs, v⟩ := it
    cases bs with
    | nil =>
      show (T ∘ T)^[wordOf (List.tail [])]
        (if ([] : List Nat).headD 0 = 1 then mApply M v else v) = T^[wordOf []] v
      rw [if_neg (by decide)]
      rfl
    | cons b bs' =>
      show (T ∘ T)^[wordOf bs'] (if (b :: bs').headD 0 = 1 then mApply M v else v)
        = T^[wordOf (b :: bs')] v
      have hv' : v < 2 ^ d := hv
      have hb1 : b ≤ 1 := hb b (by simp)
      by_cases hbb : b = 1
      · subst hbb
        show (T ∘ T)^[wordOf bs'] (if (1:Nat) = 1 then mApply M v else v)
          = T^[wordOf (1 :: bs')] v
        rw [if_pos rfl, hag v hv', iterate_double]
        have hw : wordOf (1 :: bs') = 2 * wordOf bs' + 1 := by
          show 1 + 2 * wordOf bs' = _
          omega
        rw [hw, Function.iterate_succ_apply]
      · have hb0 : b = 0 := by omega
        subst hb0
        show (T ∘ T)^[wordOf bs'] (if (0:Nat) = 1 then mApply M v else v)
          = T^[wordOf (0 :: bs')] v
        rw [if_neg (by decide), iterate_double]
        have hw : wordOf (0 :: bs') = 2 * wordOf bs' := by
          show 0 + 2 * wordOf bs' = _
          omega
        rw [hw]

/-- If `f^[N] x = x` but `f^[N/q] x ≠ x` for every prime `q ∣ N`, then
no positive `k < N` satisfies `f^[k] x = x`. -/
theorem state_period_min (f : Nat → Nat) (x : Nat) (N : Nat) (hN0 : 0 < N)
    (hfix : f^[N] x = x)
    (hdiv : ∀ q, q.Prime → q ∣ N → f^[N / q] x ≠ x) :
    ∀ k, 0 < k → k < N → f^[k] x ≠ x := by
  intro k hk hkN hcontra
  have hPk : Function.IsPeriodicPt f k x := hcontra
  have hPN : Function.IsPeriodicPt f N x := hfix
  obtain ⟨g, hgdef⟩ : ∃ g, g = Nat.gcd k N := ⟨Nat.gcd k N, rfl⟩
  have hPg : Function.IsPeriodicPt f g x := by
    rw [hgdef]
    exact hPk.gcd hPN
  have hgdvd : g ∣ N := by
    rw [hgdef]
    exact Nat.gcd_dvd_right k N
  have hgle : g ≤ k := by
    rw [hgdef]
    exact Nat.gcd_le_left N hk
  have hglt : g < N := by omega
  obtain ⟨c, hc⟩ := hgdvd
  have hc2 : 2 ≤ c := by
    rcases (by omega : c = 0 ∨ c = 1 ∨ 2 ≤ c) with h0 | h1 | h2
    · rw [h0, Nat.mul_zero] at hc
      omega
    · rw [h1, Nat.mul_one] at hc
      omega
    · exact h2
  obtain ⟨q, hqdef⟩ : ∃ q, q = c.minFac := ⟨c.minFac, rfl⟩
  have hqprime : q.Prime := by
    rw [hqdef]
    exact Nat.minFac_prime (by omega)
  have hqdvdc : q ∣ c := by
    rw [hqdef]
    exact Nat.minFac_dvd c
  have hqdvdN : q ∣ N := by
    rw [hc]
    exact Dvd.dvd.mul_left hqdvdc g
  obtain ⟨e, he⟩ := hqdvdc
  have hNq : N / q = g * e := by
    rw [hc, he, show g * (q * e) = g * e * q by ring]
    exact Nat.mul_div_cancel _ hqprime.pos
  have hPNq : Function.IsPeriodicPt f (N / q) x := by
    rw [hNq]
    exact hPg.mul_const e
  exact hdiv q hqprime hqdvdN hPNq

theorem iterate_xor (T : Nat → Nat) (hlin : ∀ a b, T (a ^^^ b) = T a ^^^ T b) :
    ∀ n a b, T^[n] (a ^^^ b) = T^[n] a ^^^ T^[n] b := by
  intro n
  induction n with
  | zero => intro a b; rfl
  | succ n ih =>
    intro a b
    rw [Function.iterate_succ_apply', Function.iterate_succ_apply',
      Function.iterate_succ_apply', ih, hlin]

theorem iterate_zero_fix (T : Nat → Nat) (h0 : T 0 = 0) : ∀ n, T^[n] 0 = 0 := by
  intro n
  induction n with
  | zero => rfl
  | succ n ih => rw [Function.iterate_succ_apply, h0, ih]

theorem iterate_ne_zero (T : Nat → Nat) (d : Nat)
    (hcl : ∀ v, v < 2 ^ d → T v < 2 ^ d)
    (hker : ∀ v, v < 2 ^ d → v ≠ 0 → T v ≠ 0) :
    ∀ n v, v < 2 ^ d → v ≠ 0 → T^[n] v ≠ 0 := by
  intro n
  induction n with
  | zero => intro v _ hnz; exact hnz
  | succ n ih =>
    intro v hv hnz
    rw [Function.iterate_succ_apply]
    exact ih (T v) (hcl v hv) (hker v hv hnz)

theorem iterate_inj (T : Nat → Nat) (d : Nat)
    (hlin : ∀ a b, T (a ^^^ b) = T a ^^^ T b)
    (hcl : ∀ v, v < 2 ^ d → T v < 2 ^ d)
    (hker : ∀ v, v < 2 ^ d → v ≠ 0 → T v ≠ 0) :
    ∀ n a b, a < 2 ^ d → b < 2 ^ d → T^[n] a = T^[n] b → a = b := by
  intro n a b ha hb heq
  by_contra hne
  have hxnz : a ^^^ b ≠ 0 := by
    rwa [Ne, Nat.xor_eq_zero]
  have hxl : a ^^^ b < 2 ^ d := Nat.xor_lt_two_pow ha hb
  have hzero : T^[n] (a ^^^ b) = 0 := by
    rw [iterate_xor T hlin, heq, Nat.xor_self]
  exact iterate_ne_zero T d hcl hker n (a ^^^ b) hxl hxnz hzero

/-- If the orbit of the all-ones state has full period `2 ^ d - 1`, it
visits every nonzero `d`-bit state. -/
theorem orbit_covers (T : Nat → Nat) (d : Nat) (hd : 0 < d)
    (hlin : ∀ a b, T (a ^^^ b) = T a ^^^ T b)
    (hcl : ∀ v, v < 2 ^ d → T v < 2 ^ d)
    (hker : ∀ v, v < 2 ^ d → v ≠ 0 → T v ≠ 0)
    (hmin : ∀ k, 0 < k → k < 2 ^ d - 1 → T^[k] (2 ^ d - 1) ≠ 2 ^ d - 1) :
    ∀ v, v < 2 ^ d → v ≠ 0 → ∃ t, t < 2 ^ d - 1 ∧ T^[t] (2 ^ d - 1) = v := by
  have h2d : (2:Nat) ^ 1 ≤ 2 ^ d := Nat.pow_le_pow_right (by omega) (by omega)
  have hmlt : 2 ^ d - 1 < 2 ^ d := by omega
  have hmne : (2:Nat) ^ d - 1 ≠ 0 := by omega
  have key : ∀ i j, i < j → j < 2 ^ d - 1 →
      T^[i] (2 ^ d - 1) = T^[j] (2 ^ d - 1) → False := by
    intro i j hij hjN heq
    have h2 : T^[i] (2 ^ d - 1) = T^[i] (T^[j - i] (2 ^ d - 1)) := by
      rw [← Function.iterate_add_apply, show i + (j - i) = j by omega]
      exact heq
    have h3 := iterate_inj T d hlin hcl hker i (2 ^ d - 1) (T^[j - i] (2 ^ d - 1))
      hmlt (iterate_lt T d hcl _ _ hmlt) h2
    exact hmin (j - i) (by omega) (by omega) h3.symm
  have hinj : Set.InjOn (fun t => T^[t] (2 ^ d - 1)) ↑(Finset.range (2 ^ d - 1)) := by
    intro i hi j hj hij
    simp only [Finset.coe_range, Set.mem_Iio] at hi hj
    rcases lt_trichotomy i j with h | h | h
    · exact absurd hij (fun hc => key i j h hj hc)
    · exact h
    · exact absurd hij.symm (fun hc => key j i h hi hc)
  have hcardS : ((Finset.range (2 ^ d - 1)).image (fun t => T^[t] (2 ^ d - 1))).card
      = 2 ^ d - 1 := by
    rw [Finset.card_image_of_injOn hinj, Finset.card_range]
  have hsub : (Finset.range (2 ^ d - 1)).image (fun t => T^[t] (2 ^ d - 1)) ⊆
      (Finset.range (2 ^ d)).erase 0 := by
    intro v hv
    rw [Finset.mem_image] at hv
    obtain ⟨t, _, rfl⟩ := hv
    rw [Finset.mem_erase, Finset.mem_range]
    exact ⟨iterate_ne_zero T d hcl hker t _ hmlt hmne, iterate_lt T d hcl t _ hmlt⟩
  have hcardU : ((Finset.range (2 ^ d)).erase 0).card = 2 ^ d - 1 := by
    rw [Finset.card_erase_of_mem (Finset.mem_range.mpr (by omega)), Finset.card_range]
  have hSU := Finset.eq_of_subset_of_card_le hsub (by omega)
  intro v hvlt hvnz
  have hmem : v ∈ (Finset.range (2 ^ d - 1)).image (fun t => T^[t] (2 ^ d - 1)) := by
    rw [hSU, Finset.mem_erase, Finset.mem_range]
    exact ⟨hvnz, hvlt⟩
  rw [Finset.mem_image] at hmem
  obtain ⟨t, ht, hteq⟩ := hmem
  exact ⟨t, Finset.mem_range.mp ht, hteq⟩

/-- If the state orbit has full period, the output bit sequence admits
no period shorter than `2 ^ d - 1` either. -/
theorem no_short_out_period (T : Nat → Nat) (d : Nat) (hd : 0 < d)
    (hlin : ∀ a b, T (a ^^^ b) = T a ^^^ T b) (h0 : T 0 = 0)
    (hcl : ∀ v, v < 2 ^ d → T v < 2 ^ d)
    (hker : ∀ v, v < 2 ^ d → v ≠ 0 → T v ≠ 0)
    (hmin : ∀ k, 0 < k → k < 2 ^ d - 1 → T^[k] (2 ^ d - 1) ≠ 2 ^ d - 1) :
    ¬ ∃ q, 0 < q ∧ q < 2 ^ d - 1 ∧
        ∀ t, (T^[t + q] (2 ^ d - 1)) &&& 1 = (T^[t] (2 ^ d - 1)) &&& 1 := by
  rintro ⟨q, hq0, hqN, hout⟩
  have h2d : (2:Nat) ^ 1 ≤ 2 ^ d := Nat.pow_le_pow_right (by omega) (by omega)
  have hmlt : 2 ^ d - 1 < 2 ^ d := by omega
  have hmne : (2:Nat) ^ d - 1 ≠ 0 := by omega
  have hcov := orbit_covers T d hd hlin hcl hker hmin
  have hLeven : ∀ v, v < 2 ^ d → (T^[q] v ^^^ v) &&& 1 = 0 := by
    intro v hv
    by_cases hvz : v = 0
    · subst hvz
      rw [iterate_zero_fix T h0, Nat.xor_zero]
      decide
    · obtain ⟨t, _, hteq⟩ := hcov v hv hvz
      rw [← hteq, ← Function.iterate_add_apply, xor_and_one,
        show q + t = t + q by omega, hout t, Nat.xor_self]
  have hLker : ∀ w, w < 2 ^ d → w ≠ 0 → T^[q] w ^^^ w ≠ 0 := by
    intro w hw hwnz hLw
    rw [Nat.xor_eq_zero] at hLw
    obtain ⟨t, _, hteq⟩ := hcov w hw hwnz
    have h2 : T^[t] (T^[q] (2 ^ d - 1)) = T^[t] (2 ^ d - 1) := by
      rw [← Function.iterate_add_apply, show t + q = q + t by omega,
        Function.iterate_add_apply, hteq, hLw]
    have h3 := iterate_inj T d hlin hcl hker t (T^[q] (2 ^ d - 1)) (2 ^ d - 1)
      (iterate_lt T d hcl _ _ hmlt) hmlt h2
    exact hmin q hq0 hqN h3
  have hLinj : Set.InjOn (fun v => T^[q] v ^^^ v) ↑(Finset.range (2 ^ d)) := by
    intro a ha b hb hab
    simp only [Finset.coe_range, Set.mem_Iio] at ha hb
    by_contra hne
    have hxnz : a ^^^ b ≠ 0 := by
      rwa [Ne, Nat.xor_eq_zero]
    have hxl : a ^^^ b < 2 ^ d := Nat.xor_lt_two_pow ha hb
    have hz : T^[q] (a ^^^ b) ^^^ (a ^^^ b) = 0 := by
      rw [iterate_xor T hlin]
      show T^[q] a ^^^ T^[q] b ^^^ (a ^^^ b) = 0
      have hab' : T^[q] a ^^^ a = T^[q] b ^^^ b := hab
      apply Nat.eq_of_testBit_eq
      intro i
      have hci := congrArg (fun t => t.testBit i) hab'
      simp only [Nat.testBit_xor, Nat.zero_testBit] at hci ⊢
      cases hA : (T^[q] a).testBit i <;> cases hB : (T^[q] b).testBit i <;>
        cases ha2 : a.testBit i <;> cases hb2 : b.testBit i <;>
        simp [hA, hB, ha2, hb2] at hci ⊢
    exact hLker _ hxl hxnz hz
  have himage : (Finset.range (2 ^ d)).image (fun v => T^[q] v ^^^ v) ⊆
      (Finset.range (2 ^ d)).filter (fun v => v &&& 1 = 0) := by
    intro v hv
    rw [Finset.mem_image] at hv
    obtain ⟨w, hw, rfl⟩ := hv
    rw [Finset.mem_filter, Finset.mem_range]
    have hwlt := Finset.mem_range.mp hw
    exact ⟨Nat.xor_lt_two_pow (iterate_lt T d hcl q w hwlt) hwlt, hLeven w hwlt⟩
  have hcard1 : ((Finset.range (2 ^ d)).image (fun v => T^[q] v ^^^ v)).card = 2 ^ d := by
    rw [Finset.card_image_of_injOn hLinj, Finset.card_range]
  have hpow2 : (2:Nat) ^ d = 2 ^ (d - 1) * 2 := by
    rw [← pow_succ]
    congr 1
    omega
  have hcard2 : ((Finset.range (2 ^ d)).filter (fun v => v &&& 1 = 0)).card
      = 2 ^ (d - 1) := by
    have hset : (Finset.range (2 ^ d)).filter (fun v => v &&& 1 = 0) =
        (Finset.range (2 ^ (d - 1))).image (fun u => 2 * u) := by
      apply Finset.ext
      intro v
      rw [Finset.mem_filter, Finset.mem_range, Finset.mem_image]
      constructor
      · rintro ⟨hvlt, hveven⟩
        rw [Nat.and_one_is_mod] at hveven
        refine ⟨v / 2, ?_, by omega⟩
        rw [Finset.mem_range]
        omega
      · rintro ⟨u, hu, rfl⟩
        rw [Finset.mem_range] at hu
        refine ⟨by omega, ?_⟩
        rw [Nat.and_one_is_mod]
        omega
    rw [hset, Finset.card_image_of_injective _ (fun a b h => by omega),
      Finset.card_range]
  have hle := Finset.card_le_card himage
  rw [hcard1, hcard2] at hle
  have hpos : (0:Nat) < 2 ^ (d - 1) := Nat.pos_pow_of_pos _ (by omega)
  omega

theorem multiPow_stepT (p d : Nat) (hp : p < 2 ^ d) (items : List (List Nat × Nat))
    (hcond : ∀ it ∈ items, (∀ b ∈ it.1, b ≤ 1) ∧ it.1.length ≤ d ∧ it.2 < 2 ^ d) :
    multiPow d (basisCols (stepT p) d) items =
      items.map fun it => (stepT p)^[wordOf it.1] it.2 :=
  multiPow_spec d d (stepT p) (basisCols (stepT p) d) items (stepT_lt p d hp)
    (fun v hv => mApply_basisCols d (stepT p) (stepT_xor p) (stepT_zero p) v hv) hcond

/-- Package the computed fixed-point checks into the full exact-period
property. -/
theorem exactPeriod_of_checks (p d : Nat) (hd : 0 < d)
    (hp1 : 2 ^ (d - 1) ≤ p) (hp2 : p < 2 ^ d)
    (hfix : (stepT p)^[2 ^ d - 1] (2 ^ d - 1) = 2 ^ d - 1)
    (hdiv : ∀ q, q.Prime → q ∣ (2 ^ d - 1) →
      (stepT p)^[(2 ^ d - 1) / q] (2 ^ d - 1) ≠ 2 ^ d - 1) :
    exactPeriod p d := by
  have h2d : (2:Nat) ^ 1 ≤ 2 ^ d := Nat.pow_le_pow_right (by omega) (by omega)
  have hmin := state_period_min (stepT p) (2 ^ d - 1) (2 ^ d - 1) (by omega) hfix hdiv
  refine ⟨hfix, hmin, ?_, ?_⟩
  · intro t
    show (stepT p)^[t + (2 ^ d - 1)] (2 ^ d - 1) &&& 1 = _
    rw [Function.iterate_add_apply, hfix]
    rfl
  · exact no_short_out_period (stepT p) d hd (stepT_xor p) (stepT_zero p)
      (stepT_lt p d hp2) (stepT_ne_zero p d hd hp1 hp2) hmin

theorem prime_mersenne31 : Nat.Prime 2147483647 := by
  have h : (2147483647 : Nat) = mersenne 31 := by norm_num [mersenne]
  rw [h]
  exact lucas_lehmer_sufficiency 31 (by norm_num) (by norm_num)

set_option maxRecDepth 1000000 in
theorem g7_period_facts :
    (stepT 0x41)^[127] 127 = 127 ∧
    (stepT 0x41)^[1] 127 = 126 := by
  have hspec := multiPow_stepT 0x41 7 (by norm_num)
    [([1,1,1,1,1,1,1], 127), ([1], 127)]
    (by decide)
  have hcomp : multiPow 7 (basisCols (stepT 0x41) 7)
      [([1,1,1,1,1,1,1], 127), ([1], 127)]
      = [127, 126] := by decide
  rw [hspec] at hcomp
  simp only [List.map_cons, List.map_nil, List.cons.injEq, and_true] at hcomp
  obtain ⟨h0, h1⟩ := hcomp
  rw [(by decide : wordOf [1,1,1,1,1,1,1] = 127)] at h0
  rw [(by decide : wordOf [1] = 1)] at h1
  exact ⟨h0, h1⟩

theorem exactPeriod_g7 : exactPeriod 0x41 7 := by
  have e1 : (2:Nat) ^ 7 - 1 = 127 := by norm_num
  apply exactPeriod_of_checks 0x41 7 (by omega) (by norm_num) (by norm_num)
  · rw [e1]
    exact g7_period_facts.1
  · intro q hq hqdvd
    rw [e1] at hqdvd ⊢
    have hfact : q = 127 := by
      exact (Nat.prime_dvd_prime_iff_eq hq (by norm_num)).mp hqdvd
    rcases hfact with rfl
    · rw [(by norm_num : (127:Nat) / 127 = 1), g7_period_facts.2]
      decide

set_option maxRecDepth 1000000 in
theorem g8_period_facts :
    (stepT 0x8E)^[255] 255 = 255 ∧
    (stepT 0x8E)^[85] 255 = 223 ∧
    (stepT 0x8E)^[51] 255 = 151 ∧
    (stepT 0x8E)^[15] 255 = 230 := by
  have hspec := multiPow_stepT 0x8E 8 (by norm_num)
    [([1,1,1,1,1,1,1,1], 255), ([1,0,1,0,1,0,1], 255), ([1,1,0,0,1,1], 255), ([1,1,1,1], 255)]
    (by decide)
  have hcomp : multiPow 8 (basisCols (stepT 0x8E) 8)
      [([1,1,1,1,1,1,1,1], 255), ([1,0,1,0,1,0,1], 255), ([1,1,0,0,1,1], 255), ([1,1,1,1], 255)]
      = [255, 223, 151, 230] := by decide
  rw [hspec] at hcomp
  simp only [List.map_cons, List.map_nil, List.cons.injEq, and_true] at hcomp
  obtain ⟨h0, h1, h2, h3⟩ := hcomp
  rw [(by decide : wordOf [1,1,1,1,1,1,1,1] = 255)] at h0
  rw [(by decide : wordOf [1,0,1,0,1,0,1] = 85)] at h1
  rw [(by decide : wordOf [1,1,0,0,1,1] = 51)] at h2
  rw [(by decide : wordOf [1,1,1,1] = 15)] at h3
  exact ⟨h0, h1, h2, h3⟩

theorem exactPeriod_g8 : exactPeriod 0x8E 8 := by
  have e1 : (2:Nat) ^ 8 - 1 = 255 := by norm_num
  apply exactPeriod_of_checks 0x8E 8 (by omega) (by norm_num) (by norm_num)
  · rw [e1]
    exact g8_period_facts.1
  · intro q hq hqdvd
    rw [e1] at hqdvd ⊢
    have hfact : q = 3 ∨ q = 5 ∨ q = 17 := by
      have hsplit : (255:Nat) = 3 * (5 * (17)) := by norm_num
      rw [hsplit] at hqdvd
      rcases (Nat.Prime.dvd_mul hq).mp hqdvd with hL0 | hR0
      · exact Or.inl ((Nat.prime_dvd_prime_iff_eq hq (by norm_num)).mp hL0)
      · clear hqdvd
        rcases (Nat.Prime.dvd_mul hq).mp hR0 with hL1 | hR1
        · exact Or.inr (Or.inl ((Nat.prime_dvd_prime_iff_eq hq (by norm_num)).mp hL1))
        · clear hR0
          exact Or.inr (Or.inr ((Nat.prime_dvd_prime_iff_eq hq (by norm_num)).mp hR1))
    rcases hfact with rfl | rfl | rfl
    · rw [(by norm_num : (255:Nat) / 3 = 85), g8_period_facts.2.1]
      decide
    · rw [(by norm_num : (255:Nat) / 5 = 51), g8_period_facts.2.2.1]
      decide
    · rw [(by norm_num : (255:Nat) / 17 = 15), g8_period_facts.2.2.2]
      decide

set_option maxRecDepth 1000000 in
theorem g15_period_facts :
    (stepT 0x4001)^[32767] 32767 = 32767 ∧
    (stepT 0x4001)^[4681] 32767 = 598 ∧
    (stepT 0x4001)^[1057] 32767 = 8074 ∧
    (stepT 0x4001)^[217] 32767 = 23479 := by
  have hspec := multiPow_stepT 0x4001 15 (by norm_num)
    [([1,1,1,1,1,1,1,1,1,1,1,1,1,1,1], 32767), ([1,0,0,1,0,0,1,0,0,1,0,0,1], 32767), ([1,0,0,0,0,1,0,0,0,0,1], 32767), ([1,0,0,1,1,0,1,1], 32767)]
    (by decide)
  have hcomp : multiPow 15 (basisCols (stepT 0x4001) 15)
      [([1,1,1,1,1,1,1,1,1,1,1,1,1,1,1], 32767), ([1,0,0,1,0,0,1,0,0,1,0,0,1], 32767), ([1,0,0,0,0,1,0,0,0,0,1], 32767), ([1,0,0,1,1,0,1,1], 32767)]
      = [32767, 598, 8074, 23479] := by decide
  rw [hspec] at hcomp
  simp only [List.map_cons, List.map_nil, List.cons.injEq, and_true] at hcomp
  obtain ⟨h0, h1, h2, h3⟩ := hcomp
  rw [(by decide : wordOf [1,1,1,1,1,1,1,1,1,1,1,1,1,1,1] = 32767)] at h0
  rw [(by decide : wordOf [1,0,0,1,0,0,1,0,0,1,0,0,1] = 4681)] at h1
  rw [(by decide : wordOf [1,0,0,0,0,1,0,0,0,0,1] = 1057)] at h2
  rw [(by decide : wordOf [1,0,0,1,1,0,1,1] = 217)] at h3
  exact ⟨h0, h1, h2, h3⟩

theorem exactPeriod_g15 : exactPeriod 0x4001 15 := by
  have e1 : (2:Nat) ^ 15 - 1 = 32767 := by norm_num
  apply exactPeriod_of_checks 0x4001 15 (by omega) (by norm_num) (by norm_num)
  · rw [e1]
    exact g15_period_facts.1
  · intro q hq hqdvd
    rw [e1] at hqdvd ⊢
    have hfact : q = 7 ∨ q = 31 ∨ q = 151 := by
      have hsplit : (32767:Nat) = 7 * (31 * (151)) := by norm_num
      rw [hsplit] at hqdvd
      rcases (Nat.Prime.dvd_mul hq).mp hqdvd with hL0 | hR0
      · exact Or.inl ((Nat.prime_dvd_prime_iff_eq hq (by norm_num)).mp hL0)
      · clear hqdvd
        rcases (Nat.Prime.dvd_mul hq).mp hR0 with hL1 | hR1
        · exact Or.inr (Or.inl ((Nat.prime_dvd_prime_iff_eq hq (by norm_num)).mp hL1))
        · clear hR0
          exact Or.inr (Or.inr ((Nat.prime_dvd_prime_iff_eq hq (by norm_num)).mp hR1))
    rcases hfact with rfl | rfl | rfl
    · rw [(by norm_num : (32767:Nat) / 7 = 4681), g15_period_facts.2.1]
      decide
    · rw [(by norm_num : (32767:Nat) / 31 = 1057), g15_period_facts.2.2.1]
      decide
    · rw [(by norm_num : (32767:Nat) / 151 = 217), g15_period_facts.2.2.2]
      decide

set_option maxRecDepth 1000000 in
theorem g16_period_facts :
    (stepT 0x8016)^[65535] 65535 = 65535 ∧
    (stepT 0x8016)^[21845] 65535 = 50577 ∧
    (stepT 0x8016)^[13107] 65535 = 38227 ∧
    (stepT 0x8016)^[3855] 65535 = 28180 ∧
    (stepT 0x8016)^[255] 65535 = 14449 := by
  have hspec := multiPow_stepT 0x8016 16 (by norm_num)
    [([1,1,1,1,1,1,1,1,1,1,1,1,1,1,1,1], 65535), ([1,0,1,0,1,0,1,0,1,0,1,0,1,0,1], 65535), ([1,1,0,0,1,1,0,0,1,1,0,0,1,1], 65535), ([1,1,1,1,0,0,0,0,1,1,1,1], 65535), ([1,1,1,1,1,1,1,1], 65535)]
    (by decide)
  have hcomp : multiPow 16 (basisCols (stepT 0x8016) 16)
      [([1,1,1,1,1,1,1,1,1,1,1,1,1,1,1,1], 65535), ([1,0,1,0,1,0,1,0,1,0,1,0,1,0,1], 65535), ([1,1,0,0,1,1,0,0,1,1,0,0,1,1], 65535), ([1,1,1,1,0,0,0,0,1,1,1,1], 65535), ([1,1,1,1,1,1,1,1], 65535)]
      = [65535, 50577, 38227, 28180, 14449] := by decide
  rw [hspec] at hcomp
  simp only [List.map_cons, List.map_nil, List.cons.injEq, and_true] at hcomp
  obtain ⟨h0, h1, h2, h3, h4⟩ := hcomp
  rw [(by decide : wordOf [1,1,1,1,1,1,1,1,1,1,1,1,1,1,1,1] = 65535)] at h0
  rw [(by decide : wordOf [1,0,1,0,1,0,1,0,1,0,1,0,1,0,1] = 21845)] at h1
  rw [(by decide : wordOf [1,1,0,0,1,1,0,0,1,1,0,0,1,1] = 13107)] at h2
  rw [(by decide : wordOf [1,1,1,1,0,0,0,0,1,1,1,1] = 3855)] at h3
  rw [(by decide : wordOf [1,1,1,1,1,1,1,1] = 255)] at h4
  exact ⟨h0, h1, h2, h3, h4⟩

theorem exactPeriod_g16 : exactPeriod 0x8016 16 := by
  have e1 : (2:Nat) ^ 16 - 1 = 65535 := by norm_num
  apply exactPeriod_of_checks 0x8016 16 (by omega) (by norm_num) (by norm_num)
  · rw [e1]
    exact g16_period_facts.1
  · intro q hq hqdvd
    rw [e1] at hqdvd ⊢
    have hfact : q = 3 ∨ q = 5 ∨ q = 17 ∨ q = 257 := by
      have hsplit : (65535:Nat) = 3 * (5 * (17 * (257))) := by norm_num
      rw [hsplit] at hqdvd
      rcases (Nat.Prime.dvd_mul hq).mp hqdvd with hL0 | hR0
      · exact Or.inl ((Nat.prime_dvd_prime_iff_eq hq (by norm_num)).mp hL0)
      · clear hqdvd
        rcases (Nat.Prime.dvd_mul hq).mp hR0 with hL1 | hR1
        · exact Or.inr (Or.inl ((Nat.prime_dvd_prime_iff_eq hq (by norm_num)).mp hL1))
        · clear hR0
          rcases (Nat.Prime.dvd_mul hq).mp hR1 with hL2 | hR2
          · exact Or.inr (Or.inr (Or.inl ((Nat.prime_dvd_prime_iff_eq hq (by norm_num)).mp hL2)))
          · clear hR1
            exact Or.inr (Or.inr (Or.inr ((Nat.prime_dvd_prime_iff_eq hq (by norm_num)).mp hR2)))
    rcases hfact with rfl | rfl | rfl | rfl
    · rw [(by norm_num : (65535:Nat) / 3 = 21845), g16_period_facts.2.1]
      decide
    · rw [(by norm_num : (65535:Nat) / 5 = 13107), g16_period_facts.2.2.1]
      decide
    · rw [(by norm_num : (65535:Nat) / 17 = 3855), g16_period_facts.2.2.2.1]
      decide
    · rw [(by norm_num : (65535:Nat) / 257 = 255), g16_period_facts.2.2.2.2]
      decide

set_option maxRecDepth 1000000 in
theorem g23_period_facts :
    (stepT 0x400010)^[8388607] 8388607 = 8388607 ∧
    (stepT 0x400010)^[178481] 8388607 = 3947486 ∧
    (stepT 0x400010)^[47] 8388607 = 2046006 := by
  have hspec := multiPow_stepT 0x400010 23 (by norm_num)
    [([1,1,1,1,1,1,1,1,1,1,1,1,1,1,1,1,1,1,1,1,1,1,1], 8388607), ([1,0,0,0,1,1,0,0,1,0,0,1,1,1,0,1,0,1], 8388607), ([1,1,1,1,0,1], 8388607)]
    (by decide)
  have hcomp : multiPow 23 (basisCols (stepT 0x400010) 23)
      [([1,1,1,1,1,1,1,1,1,1,1,1,1,1,1,1,1,1,1,1,1,1,1], 8388607), ([1,0,0,0,1,1,0,0,1,0,0,1,1,1,0,1,0,1], 8388607), ([1,1,1,1,0,1], 8388607)]
      = [8388607, 3947486, 2046006] := by decide
  rw [hspec] at hcomp
  simp only [List.map_cons, List.map_nil, List.cons.injEq, and_true] at hcomp
  obtain ⟨h0, h1, h2⟩ := hcomp
  rw [(by decide : wordOf [1,1,1,1,1,1,1,1,1,1,1,1,1,1,1,1,1,1,1,1,1,1,1] = 8388607)] at h0
  rw [(by decide : wordOf [1,0,0,0,1,1,0,0,1,0,0,1,1,1,0,1,0,1] = 178481)] at h1
  rw [(by decide : wordOf [1,1,1,1,0,1] = 47)] at h2
  exact ⟨h0, h1, h2⟩

theorem exactPeriod_g23 : exactPeriod 0x400010 23 := by
  have e1 : (2:Nat) ^ 23 - 1 = 8388607 := by norm_num
  apply exactPeriod_of_checks 0x400010 23 (by omega) (by norm_num) (by norm_num)
  · rw [e1]
    exact g23_period_facts.1
  · intro q hq hqdvd
    rw [e1] at hqdvd ⊢
    have hfact : q = 47 ∨ q = 178481 := by
      have hsplit : (8388607:Nat) = 47 * (178481) := by norm_num
      rw [hsplit] at hqdvd
      rcases (Nat.Prime.dvd_mul hq).mp hqdvd with hL0 | hR0
      · exact Or.inl ((Nat.prime_dvd_prime_iff_eq hq (by norm_num)).mp hL0)
      · clear hqdvd
        exact Or.inr ((Nat.prime_dvd_prime_iff_eq hq (by norm_num)).mp hR0)
    rcases hfact with rfl | rfl
    · rw [(by norm_num : (8388607:Nat) / 47 = 178481), g23_period_facts.2.1]
      decide
    · rw [(by norm_num : (8388607:Nat) / 178481 = 47), g23_period_facts.2.2]
      decide

set_option maxRecDepth 1000000 in
theorem g24_period_facts :
    (stepT 0x80000D)^[16777215] 16777215 = 16777215 ∧
    (stepT 0x80000D)^[5592405] 16777215 = 40434 ∧
    (stepT 0x80000D)^[3355443] 16777215 = 3096111 ∧
    (stepT 0x80000D)^[2396745] 16777215 = 14536265 ∧
    (stepT 0x80000D)^[1290555] 16777215 = 13757070 ∧
    (stepT 0x80000D)^[986895] 16777215 = 13555808 ∧
    (stepT 0x80000D)^[69615] 16777215 = 14680470 := by
  have hspec := multiPow_stepT 0x80000D 24 (by norm_num)
    [([1,1,1,1,1,1,1,1,1,1,1,1,1,1,1,1,1,1,1,1,1,1,1,1], 16777215), ([1,0,1,0,1,0,1,0,1,0,1,0,1,0,1,0,1,0,1,0,1,0,1], 16777215), ([1,1,0,0,1,1,0,0,1,1,0,0,1,1,0,0,1,1,0,0,1,1], 16777215), ([1,0,0,1,0,0,1,0,0,1,0,0,1,0,0,1,0,0,1,0,0,1], 16777215), ([1,1,0,1,1,1,0,0,1,0,0,0,1,1,0,1,1,1,0,0,1], 16777215), ([1,1,1,1,0,0,0,0,1,1,1,1,0,0,0,0,1,1,1,1], 16777215), ([1,1,1,1,0,1,1,1,1,1,1,1,0,0,0,0,1], 16777215)]
    (by decide)
  have hcomp : multiPow 24 (basisCols (stepT 0x80000D) 24)
      [([1,1,1,1,1,1,1,1,1,1,1,1,1,1,1,1,1,1,1,1,1,1,1,1], 16777215), ([1,0,1,0,1,0,1,0,1,0,1,0,1,0,1,0,1,0,1,0,1,0,1], 16777215), ([1,1,0,0,1,1,0,0,1,1,0,0,1,1,0,0,1,1,0,0,1,1], 16777215), ([1,0,0,1,0,0,1,0,0,1,0,0,1,0,0,1,0,0,1,0,0,1], 16777215), ([1,1,0,1,1,1,0,0,1,0,0,0,1,1,0,1,1,1,0,0,1], 16777215), ([1,1,1,1,0,0,0,0,1,1,1,1,0,0,0,0,1,1,1,1], 16777215), ([1,1,1,1,0,1,1,1,1,1,1,1,0,0,0,0,1], 16777215)]
      = [16777215, 40434, 3096111, 14536265, 13757070, 13555808, 14680470] := by decide
  rw [hspec] at hcomp
  simp only [List.map_cons, List.map_nil, List.cons.injEq, and_true] at hcomp
  obtain ⟨h0, h1, h2, h3, h4, h5, h6⟩ := hcomp
  rw [(by decide : wordOf [1,1,1,1,1,1,1,1,1,1,1,1,1,1,1,1,1,1,1,1,1,1,1,1] = 16777215)] at h0
  rw [(by decide : wordOf [1,0,1,0,1,0,1,0,1,0,1,0,1,0,1,0,1,0,1,0,1,0,1] = 5592405)] at h1
  rw [(by decide : wordOf [1,1,0,0,1,1,0,0,1,1,0,0,1,1,0,0,1,1,0,0,1,1] = 3355443)] at h2
  rw [(by decide : wordOf [1,0,0,1,0,0,1,0,0,1,0,0,1,0,0,1,0,0,1,0,0,1] = 2396745)] at h3
  rw [(by decide : wordOf [1,1,0,1,1,1,0,0,1,0,0,0,1,1,0,1,1,1,0,0,1] = 1290555)] at h4
  rw [(by decide : wordOf [1,1,1,1,0,0,0,0,1,1,1,1,0,0,0,0,1,1,1,1] = 986895)] at h5
  rw [(by decide : wordOf [1,1,1,1,0,1,1,1,1,1,1,1,0,0,0,0,1] = 69615)] at h6
  exact ⟨h0, h1, h2, h3, h4, h5, h6⟩

theorem exactPeriod_g24 : exactPeriod 0x80000D 24 := by
  have e1 : (2:Nat) ^ 24 - 1 = 16777215 := by norm_num
  apply exactPeriod_of_checks 0x80000D 24 (by omega) (by norm_num) (by norm_num)
  · rw [e1]
    exact g24_period_facts.1
  · intro q hq hqdvd
    rw [e1] at hqdvd ⊢
    have hfact : q = 3 ∨ q = 5 ∨ q = 7 ∨ q = 13 ∨ q = 17 ∨ q = 241 := by
      have hsplit : (16777215:Nat) = 3 * (3 * (5 * (7 * (13 * (17 * (241)))))) := by norm_num
      rw [hsplit] at hqdvd
      rcases (Nat.Prime.dvd_mul hq).mp hqdvd with hL0 | hR0
      · exact Or.inl ((Nat.prime_dvd_prime_iff_eq hq (by norm_num)).mp hL0)
      · clear hqdvd
        rcases (Nat.Prime.dvd_mul hq).mp hR0 with hL1 | hR1
        · exact Or.inl ((Nat.prime_dvd_prime_iff_eq hq (by norm_num)).mp hL1)
        · clear hR0
          rcases (Nat.Prime.dvd_mul hq).mp hR1 with hL2 | hR2
          · exact Or.inr (Or.inl ((Nat.prime_dvd_prime_iff_eq hq (by norm_num)).mp hL2))
          · clear hR1
            rcases (Nat.Prime.dvd_mul hq).mp hR2 with hL3 | hR3
            · exact Or.inr (Or.inr (Or.inl ((Nat.prime_dvd_prime_iff_eq hq (by norm_num)).mp hL3)))
            · clear hR2
              rcases (Nat.Prime.dvd_mul hq).mp hR3 with hL4 | hR4
              · exact Or.inr (Or.inr (Or.inr (Or.inl ((Nat.prime_dvd_prime_iff_eq hq (by norm_num)).mp hL4))))
              · clear hR3
                rcases (Nat.Prime.dvd_mul hq).mp hR4 with hL5 | hR5
                · exact Or.inr (Or.inr (Or.inr (Or.inr (Or.inl ((Nat.prime_dvd_prime_iff_eq hq (by norm_num)).mp hL5)))))
                · clear hR4
                  exact Or.inr (Or.inr (Or.inr (Or.inr (Or.inr ((Nat.prime_dvd_prime_iff_eq hq (by norm_num)).mp hR5)))))
    rcases hfact with rfl | rfl | rfl | rfl | rfl | rfl
    · rw [(by norm_num : (16777215:Nat) / 3 = 5592405), g24_period_facts.2.1]
      decide
    · rw [(by norm_num : (16777215:Nat) / 5 = 3355443), g24_period_facts.2.2.1]
      decide
    · rw [(by norm_num : (16777215:Nat) / 7 = 2396745), g24_period_facts.2.2.2.1]
      decide
    · rw [(by norm_num : (16777215:Nat) / 13 = 1290555), g24_period_facts.2.2.2.2.1]
      decide
    · rw [(by norm_num : (16777215:Nat) / 17 = 986895), g24_period_facts.2.2.2.2.2.1]
      decide
    · rw [(by norm_num : (16777215:Nat) / 241 = 69615), g24_period_facts.2.2.2.2.2.2]
      decide

set_option maxRecDepth 1000000 in
theorem g31_period_facts :
    (stepT 0x40000004)^[2147483647] 2147483647 = 2147483647 ∧
    (stepT 0x40000004)^[1] 2147483647 = 2147483643 := by
  have hspec := multiPow_stepT 0x40000004 31 (by norm_num)
    [([1,1,1,1,1,1,1,1,1,1,1,1,1,1,1,1,1,1,1,1,1,1,1,1,1,1,1,1,1,1,1], 2147483647), ([1], 2147483647)]
    (by decide)
  have hcomp : multiPow 31 (basisCols (stepT 0x40000004) 31)
      [([1,1,1,1,1,1,1,1,1,1,1,1,1,1,1,1,1,1,1,1,1,1,1,1,1,1,1,1,1,1,1], 2147483647), ([1], 2147483647)]
      = [2147483647, 2147483643] := by decide
  rw [hspec] at hcomp
  simp only [List.map_cons, List.map_nil, List.cons.injEq, and_true] at hcomp
  obtain ⟨h0, h1⟩ := hcomp
  rw [(by decide : wordOf [1,1,1,1,1,1,1,1,1,1,1,1,1,1,1,1,1,1,1,1,1,1,1,1,1,1,1,1,1,1,1] = 2147483647)] at h0
  rw [(by decide : wordOf [1] = 1)] at h1
  exact ⟨h0, h1⟩

theorem exactPeriod_g31 : exactPeriod 0x40000004 31 := by
  have e1 : (2:Nat) ^ 31 - 1 = 2147483647 := by norm_num
  apply exactPeriod_of_checks 0x40000004 31 (by omega) (by norm_num) (by norm_num)
  · rw [e1]
    exact g31_period_facts.1
  · intro q hq hqdvd
    rw [e1] at hqdvd ⊢
    have hfact : q = 2147483647 := by
      exact (Nat.prime_dvd_prime_iff_eq hq prime_mersenne31).mp hqdvd
    rcases hfact with rfl
    · rw [(by norm_num : (2147483647:Nat) / 2147483647 = 1), g31_period_facts.2]
      decide

set_option maxRecDepth 1000000 in
theorem g32_period_facts :
    (stepT 0x80000057)^[4294967295] 4294967295 = 4294967295 ∧
    (stepT 0x80000057)^[1431655765] 4294967295 = 2377630900 ∧
    (stepT 0x80000057)^[858993459] 4294967295 = 4013740793 ∧
    (stepT 0x80000057)^[252645135] 4294967295 = 2788011864 ∧
    (stepT 0x80000057)^[16711935] 4294967295 = 3833586609 ∧
    (stepT 0x80000057)^[65535] 4294967295 = 714700225 := by
  have hspec := multiPow_stepT 0x80000057 32 (by norm_num)
    [([1,1,1,1,1,1,1,1,1,1,1,1,1,1,1,1,1,1,1,1,1,1,1,1,1,1,1,1,1,1,1,1], 4294967295), ([1,0,1,0,1,0,1,0,1,0,1,0,1,0,1,0,1,0,1,0,1,0,1,0,1,0,1,0,1,0,1], 4294967295), ([1,1,0,0,1,1,0,0,1,1,0,0,1,1,0,0,1,1,0,0,1,1,0,0,1,1,0,0,1,1], 4294967295), ([1,1,1,1,0,0,0,0,1,1,1,1,0,0,0,0,1,1,1,1,0,0,0,0,1,1,1,1], 4294967295), ([1,1,1,1,1,1,1,1,0,0,0,0,0,0,0,0,1,1,1,1,1,1,1,1], 4294967295), ([1,1,1,1,1,1,1,1,1,1,1,1,1,1,1,1], 4294967295)]
    (by decide)
  have hcomp : multiPow 32 (basisCols (stepT 0x80000057) 32)
      [([1,1,1,1,1,1,1,1,1,1,1,1,1,1,1,1,1,1,1,1,1,1,1,1,1,1,1,1,1,1,1,1], 4294967295), ([1,0,1,0,1,0,1,0,1,0,1,0,1,0,1,0,1,0,1,0,1,0,1,0,1,0,1,0,1,0,1], 4294967295), ([1,1,0,0,1,1,0,0,1,1,0,0,1,1,0,0,1,1,0,0,1,1,0,0,1,1,0,0,1,1], 4294967295), ([1,1,1,1,0,0,0,0,1,1,1,1,0,0,0,0,1,1,1,1,0,0,0,0,1,1,1,1], 4294967295), ([1,1,1,1,1,1,1,1,0,0,0,0,0,0,0,0,1,1,1,1,1,1,1,1], 4294967295), ([1,1,1,1,1,1,1,1,1,1,1,1,1,1,1,1], 4294967295)]
      = [4294967295, 2377630900, 4013740793, 2788011864, 3833586609, 714700225] := by decide
  rw [hspec] at hcomp
  simp only [List.map_cons, List.map_nil, List.cons.injEq, and_true] at hcomp
  obtain ⟨h0, h1, h2, h3, h4, h5⟩ := hcomp
  rw [(by decide : wordOf [1,1,1,1,1,1,1,1,1,1,1,1,1,1,1,1,1,1,1,1,1,1,1,1,1,1,1,1,1,1,1,1] = 4294967295)] at h0
  rw [(by decide : wordOf [1,0,1,0,1,0,1,0,1,0,1,0,1,0,1,0,1,0,1,0,1,0,1,0,1,0,1,0,1,0,1] = 1431655765)] at h1
  rw [(by decide : wordOf [1,1,0,0,1,1,0,0,1,1,0,0,1,1,0,0,1,1,0,0,1,1,0,0,1,1,0,0,1,1] = 858993459)] at h2
  rw [(by decide : wordOf [1,1,1,1,0,0,0,0,1,1,1,1,0,0,0,0,1,1,1,1,0,0,0,0,1,1,1,1] = 252645135)] at h3
  rw [(by decide : wordOf [1,1,1,1,1,1,1,1,0,0,0,0,0,0,0,0,1,1,1,1,1,1,1,1] = 16711935)] at h4
  rw [(by decide : wordOf [1,1,1,1,1,1,1,1,1,1,1,1,1,1,1,1] = 65535)] at h5
  exact ⟨h0, h1, h2, h3, h4, h5⟩

theorem exactPeriod_g32 : exactPeriod 0x80000057 32 := by
  have e1 : (2:Nat) ^ 32 - 1 = 4294967295 := by norm_num
  apply exactPeriod_of_checks 0x80000057 32 (by omega) (by norm_num) (by norm_num)
  · rw [e1]
    exact g32_period_facts.1
  · intro q hq hqdvd
    rw [e1] at hqdvd ⊢
    have hfact : q = 3 ∨ q = 5 ∨ q = 17 ∨ q = 257 ∨ q = 65537 := by
      have hsplit : (4294967295:Nat) = 3 * (5 * (17 * (257 * (65537)))) := by norm_num
      rw [hsplit] at hqdvd
      rcases (Nat.Prime.dvd_mul hq).mp hqdvd with hL0 | hR0
      · exact Or.inl ((Nat.prime_dvd_prime_iff_eq hq (by norm_num)).mp hL0)
      · clear hqdvd
        rcases (Nat.Prime.dvd_mul hq).mp hR0 with hL1 | hR1
        · exact Or.inr (Or.inl ((Nat.prime_dvd_prime_iff_eq hq (by norm_num)).mp hL1))
        · clear hR0
          rcases (Nat.Prime.dvd_mul hq).mp hR1 with hL2 | hR2
          · exact Or.inr (Or.inr (Or.inl ((Nat.prime_dvd_prime_iff_eq hq (by norm_num)).mp hL2)))
          · clear hR1
            rcases (Nat.Prime.dvd_mul hq).mp hR2 with hL3 | hR3
            · exact Or.inr (Or.inr (Or.inr (Or.inl ((Nat.prime_dvd_prime_iff_eq hq (by norm_num)).mp hL3))))
            · clear hR2
              exact Or.inr (Or.inr (Or.inr (Or.inr ((Nat.prime_dvd_prime_iff_eq hq (by norm_num)).mp hR3))))
    rcases hfact with rfl | rfl | rfl | rfl | rfl
    · rw [(by norm_num : (4294967295:Nat) / 3 = 1431655765), g32_period_facts.2.1]
      decide
    · rw [(by norm_num : (4294967295:Nat) / 5 = 858993459), g32_period_facts.2.2.1]
      decide
    · rw [(by norm_num : (4294967295:Nat) / 17 = 252645135), g32_period_facts.2.2.2.1]
      decide
    · rw [(by norm_num : (4294967295:Nat) / 257 = 16711935), g32_period_facts.2.2.2.2.1]
      decide
    · rw [(by norm_num : (4294967295:Nat) / 65537 = 65535), g32_period_facts.2.2.2.2.2]
      decide

/-- Claim C3: for every catalogued polynomial `G7 … G32` of degree `d`,
the `step` sequence from the reset state (`state == mask`, as set up by
`setPoly`) returns to the reset state for the first time after exactly
`2 ^ d - 1` steps, and the output bit sequence has no shorter period.
The first conjunct ties the register-level `step` to the pure
transition `stepT`, the next eight describe the reset state that
`setPoly` establishes, and the last eight state the exact-period
property of the state and output sequences. -/
theorem claim_C3 :
    (∀ r : PRBSGenerator, r.poly ≠ 0 →
      r.step = some (r.stat &&& 1, { r with stat := stepT r.poly r.stat })) ∧
    (∀ h : Nat, ∃ r, (PRBSGenerator.init h).setPoly 0x41 = some r ∧
      r.stat = 2 ^ 7 - 1 ∧ r.poly = 0x41 ∧ r.mask = 2 ^ 7 - 1 ∧ r.degr = 7) ∧
    (∀ h : Nat, ∃ r, (PRBSGenerator.init h).setPoly 0x8E = some r ∧
      r.stat = 2 ^ 8 - 1 ∧ r.poly = 0x8E ∧ r.mask = 2 ^ 8 - 1 ∧ r.degr = 8) ∧
    (∀ h : Nat, ∃ r, (PRBSGenerator.init h).setPoly 0x4001 = some r ∧
      r.stat = 2 ^ 15 - 1 ∧ r.poly = 0x4001 ∧ r.mask = 2 ^ 15 - 1 ∧ r.degr = 15) ∧
    (∀ h : Nat, ∃ r, (PRBSGenerator.init h).setPoly 0x8016 = some r ∧
      r.stat = 2 ^ 16 - 1 ∧ r.poly = 0x8016 ∧ r.mask = 2 ^ 16 - 1 ∧ r.degr = 16) ∧
    (∀ h : Nat, ∃ r, (PRBSGenerator.init h).setPoly 0x400010 = some r ∧
      r.stat = 2 ^ 23 - 1 ∧ r.poly = 0x400010 ∧ r.mask = 2 ^ 23 - 1 ∧ r.degr = 23) ∧
    (∀ h : Nat, ∃ r, (PRBSGenerator.init h).setPoly 0x80000D = some r ∧
      r.stat = 2 ^ 24 - 1 ∧ r.poly = 0x80000D ∧ r.mask = 2 ^ 24 - 1 ∧ r.degr = 24) ∧
    (∀ h : Nat, ∃ r, (PRBSGenerator.init h).setPoly 0x40000004 = some r ∧
      r.stat = 2 ^ 31 - 1 ∧ r.poly = 0x40000004 ∧ r.mask = 2 ^ 31 - 1 ∧ r.degr = 31) ∧
    (∀ h : Nat, ∃ r, (PRBSGenerator.init h).setPoly 0x80000057 = some r ∧
      r.stat = 2 ^ 32 - 1 ∧ r.poly = 0x80000057 ∧ r.mask = 2 ^ 32 - 1 ∧ r.degr = 32) ∧
    exactPeriod 0x41 7 ∧
    exactPeriod 0x8E 8 ∧
    exactPeriod 0x4001 15 ∧
    exactPeriod 0x8016 16 ∧
    exactPeriod 0x400010 23 ∧
    exactPeriod 0x80000D 24 ∧
    exactPeriod 0x40000004 31 ∧
    exactPeriod 0x80000057 32 := by
  refine ⟨?_, ?_, ?_, ?_, ?_, ?_, ?_, ?_, ?_, exactPeriod_g7, exactPeriod_g8, exactPeriod_g15, exactPeriod_g16, exactPeriod_g23, exactPeriod_g24, exactPeriod_g31, exactPeriod_g32⟩
  · intro r hp
    unfold PRBSGenerator.step
    rw [if_neg hp]
  · intro h
    have hs : Nat.size 0x41 = 7 :=
      size_eq_of_bounds (by omega) (by norm_num) (by norm_num)
    have hsp := setPoly_spec 0x41 (by norm_num) (PRBSGenerator.init h)
    rw [hs] at hsp
    exact ⟨_, hsp, rfl, rfl, rfl, rfl⟩
  · intro h
    have hs : Nat.size 0x8E = 8 :=
      size_eq_of_bounds (by omega) (by norm_num) (by norm_num)
    have hsp := setPoly_spec 0x8E (by norm_num) (PRBSGenerator.init h)
    rw [hs] at hsp
    exact ⟨_, hsp, rfl, rfl, rfl, rfl⟩
  · intro h
    have hs : Nat.size 0x4001 = 15 :=
      size_eq_of_bounds (by omega) (by norm_num) (by norm_num)
    have hsp := setPoly_spec 0x4001 (by norm_num) (PRBSGenerator.init h)
    rw [hs] at hsp
    exact ⟨_, hsp, rfl, rfl, rfl, rfl⟩
  · intro h
    have hs : Nat.size 0x8016 = 16 :=
      size_eq_of_bounds (by omega) (by norm_num) (by norm_num)
    have hsp := setPoly_spec 0x8016 (by norm_num) (PRBSGenerator.init h)
    rw [hs] at hsp
    exact ⟨_, hsp, rfl, rfl, rfl, rfl⟩
  · intro h
    have hs : Nat.size 0x400010 = 23 :=
      size_eq_of_bounds (by omega) (by norm_num) (by norm_num)
    have hsp := setPoly_spec 0x400010 (by norm_num) (PRBSGenerator.init h)
    rw [hs] at hsp
    exact ⟨_, hsp, rfl, rfl, rfl, rfl⟩
  · intro h
    have hs : Nat.size 0x80000D = 24 :=
      size_eq_of_bounds (by omega) (by norm_num) (by norm_num)
    have hsp := setPoly_spec 0x80000D (by norm_num) (PRBSGenerator.init h)
    rw [hs] at hsp
    exact ⟨_, hsp, rfl, rfl, rfl, rfl⟩
  · intro h
    have hs : Nat.size 0x40000004 = 31 :=
      size_eq_of_bounds (by omega) (by norm_num) (by norm_num)
    have hsp := setPoly_spec 0x40000004 (by norm_num) (PRBSGenerator.init h)
    rw [hs] at hsp
    exact ⟨_, hsp, rfl, rfl, rfl, rfl⟩
  · intro h
    have hs : Nat.size 0x80000057 = 32 :=
      size_eq_of_bounds (by omega) (by norm_num) (by norm_num)
    have hsp := setPoly_spec 0x80000057 (by norm_num) (PRBSGenerator.init h)
    rw [hs] at hsp
    exact ⟨_, hsp, rfl, rfl, rfl, rfl⟩

